import Mathlib

/-!
A verification development for the Go package validator (validator.go)

The package offers one entry point, Validate, which walks the fields of a
struct through reflection, reads the rule written in each field's
"validate" tag and applies one of four rule evaluators (validateLen,
validateMin, validateMax, validateIn) to the field's value.

The embedding is shallow.  A reflect.Value is a term of the inductive type
Value; Go strings are Lean strings, with Go's len being the UTF-8 byte
length; Go's int64 (and int, on the 64-bit platforms assumed throughout)
is Int, results of the strconv parsers being confined to the 64-bit range by
the parsers themselves; a run-time panic is the error side of Except.
The library functions the package calls (strconv.Atoi, strconv.ParseInt,
strings.Split, reflect.Indirect) are embedded from the Go standard library.
-/

deriving instance DecidableEq for Except

namespace validator

/-! ## Values seen through reflection -/

/-- Kinds of reflect.Value for which no rule evaluator has a case: every kind
other than the signed integers, String, Slice, Struct, Pointer and Invalid. -/
inductive OtherKind
  | Bool | Uint | Uint8 | Uint16 | Uint32 | Uint64 | Uintptr
  | Float32 | Float64 | Complex64 | Complex128
  | Array | Chan | Func | Interface | Map | RawPointer
  deriving DecidableEq, Repr

/-- One field of a struct as reflection shows it: the name and export status of
sv.Type().Field(i), the value of its "validate" tag key (empty when the key is
absent) and the field value sv.Field(i). -/
structure StructField (α : Type) where
  Name : String
  IsExported : Bool
  Tag : String
  value : α

/-- A reflect.Value.  The constructor int stands for the kinds Int, Int8,
Int16, Int32 and Int64 and carries the result of v.Int(); invalid is the zero
Value (what reflect.ValueOf(nil) returns); ptr none is a nil pointer. -/
inductive Value where
  | invalid
  | int (x : Int)
  | str (s : String)
  | slice (xs : List Value)
  | struct (fields : List (StructField Value))
  | ptr (target : Option Value)
  | other (k : OtherKind)

/-- The result of v.Kind(), the five signed integer kinds being merged. -/
inductive Kind
  | Invalid | Int | String | Slice | Struct | Pointer
  | Other (k : OtherKind)
  deriving DecidableEq, Repr

/-- The kind of a reflect.Value. -/
def Value.Kind : Value → Kind
  | .invalid => .Invalid
  | .int _ => .Int
  | .str _ => .String
  | .slice _ => .Slice
  | .struct _ => .Struct
  | .ptr _ => .Pointer
  | .other k => .Other k

/-- The function reflect.Indirect: the value a pointer points to, the zero Value
for a nil pointer, and the value itself when it is not a pointer. -/
def Indirect : Value → Value
  | .ptr (some t) => t
  | .ptr none => .invalid
  | v => v

/-! ## Errors -/

/-- The error values of the package: its three sentinels, an error made by
errors.New at a call site, and the wrapping made by
fmt.Errorf("validation error: field %s: %w", name, cause). -/
inductive error
  | ErrNotStruct
  | ErrInvalidValidatorSyntax
  | ErrValidateForUnexportedFields
  | New (text : String)
  | Errorf (fieldName : String) (cause : error)
  deriving DecidableEq, Repr

/-- The method Error() of an error value. -/
def error.Error : error → String
  | .ErrNotStruct => "wrong argument given, should be a struct"
  | .ErrInvalidValidatorSyntax => "invalid validator syntax"
  | .ErrValidateForUnexportedFields => "validation for unexported field is not allowed"
  | .New text => text
  | .Errorf fieldName cause => "validation error: field " ++ fieldName ++ ": " ++ cause.Error

/-- The struct ValidationError; its field Err is none for a nil error. -/
structure ValidationError where
  Err : Option error
  deriving DecidableEq, Repr

/-- The slice type ValidationErrors. -/
abbrev ValidationErrors := List ValidationError

/-- Run-time panics the package can raise. -/
inductive Panic
  | indexOutOfRange
  | nilDereference
  deriving DecidableEq, Repr

/-- The loop of ValidationErrors.Error: valRes = valRes + e.Err.Error() + "\n". -/
def ValidationErrors.Error.loop : List ValidationError → String → Except Panic String
  | [], valRes => .ok valRes
  | e :: es, valRes =>
    match e.Err with
    | none => .error .nilDereference
    | some err => ValidationErrors.Error.loop es (valRes ++ err.Error ++ "\n")

/-- The method ValidationErrors.Error. -/
def ValidationErrors.Error (v : ValidationErrors) : Except Panic String :=
  match v with
  | [e] =>
    match e.Err with
    | none => .error .nilDereference
    | some err => .ok err.Error
  | _ => ValidationErrors.Error.loop v ""

/-! ## The library functions used by the package -/

/-- The two causes strconv reports in a NumError. -/
inductive NumError
  | ErrSyntax
  | ErrRange
  deriving DecidableEq, Repr

/-- A decimal digit, as the test on a byte in strconv: between the bytes of 0 and 9. -/
def isDigit (c : Char) : Bool := decide (48 ≤ c.toNat) && decide (c.toNat ≤ 57)

/-- The value of a digit byte: c - 48. -/
def digitVal (c : Char) : Nat := c.toNat - 48

/-- The constant maxUint64 of strconv. -/
def maxUint64 : Nat := 18446744073709551615

/-- The loop of strconv.ParseUint at base 10 and bitSize 64, n being the value
accumulated so far: a byte that is no digit is a syntax error, and a value that
leaves the 64-bit unsigned range is a range error. -/
def ParseUint.loop : List Char → Nat → Except NumError Nat
  | [], n => .ok n
  | c :: cs, n =>
    if isDigit c = false then .error .ErrSyntax
    else if n ≥ maxUint64 / 10 + 1 then .error .ErrRange
    else
      let n10 := n * 10
      let n1 := (n10 + digitVal c) % 18446744073709551616
      if n1 < n10 ∨ n1 > maxUint64 then .error .ErrRange
      else ParseUint.loop cs n1

/-- The function strconv.ParseUint(s, 10, 64) on the characters of s. -/
def ParseUint (s : List Char) : Except NumError Nat :=
  match s with
  | [] => .error .ErrSyntax
  | _ => ParseUint.loop s 0

/-- The conversion int64(u) and the negation of an int64: two-complement wrap
into the signed 64-bit range. -/
def toInt64 (x : Int) : Int :=
  (x + 9223372036854775808) % 18446744073709551616 - 9223372036854775808

/-- The function strconv.ParseInt(s, 10, 64): an optional sign, then ParseUint,
then the check of the signed range. -/
def ParseInt (s : String) : Except NumError Int :=
  match s.data with
  | [] => .error .ErrSyntax
  | c :: cs =>
    let neg : Bool := decide (c = '-')
    let rest := if c = '+' ∨ c = '-' then cs else c :: cs
    match ParseUint rest with
    | .error .ErrSyntax => .error .ErrSyntax
    | r =>
      let un : Nat := match r with
        | .ok n => n
        | .error _ => maxUint64
      let cutoff : Nat := 9223372036854775808
      if neg = false ∧ un ≥ cutoff then .error .ErrRange
      else if neg = true ∧ un > cutoff then .error .ErrRange
      else
        let n := toInt64 un
        .ok (if neg then toInt64 (-n) else n)

/-- The digit loop of the fast path of strconv.Atoi; none is its syntax error. -/
def Atoi.loop : List Char → Int → Option Int
  | [], n => some n
  | ch :: cs, n =>
    if isDigit ch = false then none
    else Atoi.loop cs (n * 10 + digitVal ch)

/-- The function strconv.Atoi with a 64-bit int: the fast path for inputs of 1 to
18 bytes, and ParseInt(s, 10, 0) for the others. -/
def Atoi (s : String) : Except NumError Int :=
  let sLen := s.utf8ByteSize
  if 0 < sLen ∧ sLen < 19 then
    match s.data with
    | [] => .error .ErrSyntax
    | c :: cs =>
      let signed : Bool := decide (c = '-' ∨ c = '+')
      let digits := if signed then cs else c :: cs
      if signed = true ∧ digits = [] then .error .ErrSyntax
      else
        match Atoi.loop digits 0 with
        | none => .error .ErrSyntax
        | some n => .ok (if c = '-' then -n else n)
  else ParseInt s

/-- The pieces of a character sequence between the occurrences of sep. -/
def splitChars (sep : Char) : List Char → List (List Char)
  | [] => [[]]
  | c :: cs =>
    if c = sep then [] :: splitChars sep cs
    else
      match splitChars sep cs with
      | [] => [[c]]
      | p :: ps => (c :: p) :: ps

/-- The function strings.Split(s, sep) for a separator of one ASCII character:
all the substrings of s between separators, in order. -/
def Split (s : String) (sep : Char) : List String :=
  (splitChars sep s.data).map String.mk

/-! ## The rule evaluators -/

mutual
/-- The function validateLen. -/
def validateLen (v : Value) (lenStr : String) : ValidationError :=
  match Atoi lenStr with
  | .error _ => ⟨some .ErrInvalidValidatorSyntax⟩
  | .ok length =>
    match v with
    | .slice xs => validateLenElems xs lenStr
    | .str s =>
      if (s.utf8ByteSize : Int) ≠ length then ⟨some (.New "length of string is not equal")⟩
      else ⟨none⟩
    | _ => ⟨none⟩
/-- The loop of validateLen over the elements of a slice, from index 0. -/
def validateLenElems (xs : List Value) (lenStr : String) : ValidationError :=
  match xs with
  | [] => ⟨none⟩
  | x :: rest =>
    let valErr := validateLen x lenStr
    if valErr.Err ≠ none then valErr else validateLenElems rest lenStr
end

mutual
/-- The function validateMin. -/
def validateMin (v : Value) (minStr : String) : ValidationError :=
  match ParseInt minStr with
  | .error _ => ⟨some .ErrInvalidValidatorSyntax⟩
  | .ok min =>
    match v with
    | .slice xs => validateMinElems xs minStr
    | .int x =>
      if x < min then ⟨some (.New "value is less than allowed")⟩ else ⟨none⟩
    | .str s =>
      if s.utf8ByteSize = 0 then ⟨some (.New "empty text")⟩
      else if (s.utf8ByteSize : Int) < min then ⟨some (.New "len of string is less than allowed")⟩
      else ⟨none⟩
    | _ => ⟨none⟩
/-- The loop of validateMin over the elements of a slice, from index 0. -/
def validateMinElems (xs : List Value) (minStr : String) : ValidationError :=
  match xs with
  | [] => ⟨none⟩
  | x :: rest =>
    let valErr := validateMin x minStr
    if valErr.Err ≠ none then valErr else validateMinElems rest minStr
end

mutual
/-- The function validateMax. -/
def validateMax (v : Value) (maxStr : String) : ValidationError :=
  match ParseInt maxStr with
  | .error _ => ⟨some .ErrInvalidValidatorSyntax⟩
  | .ok max =>
    match v with
    | .slice xs => validateMaxElems xs maxStr
    | .int x =>
      if x > max then ⟨some (.New "value is bigger than allowed")⟩ else ⟨none⟩
    | .str s =>
      if s.utf8ByteSize = 0 then ⟨some (.New "empty text")⟩
      else if (s.utf8ByteSize : Int) > max then ⟨some (.New "len of string is bigger than allowed")⟩
      else ⟨none⟩
    | _ => ⟨none⟩
/-- The loop of validateMax over the elements of a slice, from index 0. -/
def validateMaxElems (xs : List Value) (maxStr : String) : ValidationError :=
  match xs with
  | [] => ⟨none⟩
  | x :: rest =>
    let valErr := validateMax x maxStr
    if valErr.Err ≠ none then valErr else validateMaxElems rest maxStr
end

/-- The loop of validateIn over searchSpace for a signed integer: none when a
candidate does not parse (the syntax error), else the final flag. -/
def validateIn.intLoop (vInt : Int) : List String → Bool → Option Bool
  | [], flag => some flag
  | c :: cs, flag =>
    match ParseInt c with
    | .error _ => none
    | .ok val => validateIn.intLoop vInt cs (if vInt = val then true else flag)

/-- The loop of validateIn over searchSpace for a text: the final flag. -/
def validateIn.strLoop (vString : String) : List String → Bool → Bool
  | [], flag => flag
  | c :: cs, flag => validateIn.strLoop vString cs (if vString = c then true else flag)

/-- The end of validateIn: the violation when the flag was never set. -/
def validateIn.finish (flag : Bool) : ValidationError :=
  if flag = false then ⟨some (.New "value not in a valid set")⟩ else ⟨none⟩

mutual
/-- The function validateIn. -/
def validateIn (v : Value) (inStr : String) : ValidationError :=
  if inStr = "" then ⟨some .ErrInvalidValidatorSyntax⟩
  else
    match v with
    | .slice xs => validateInElems xs inStr false
    | .int vInt =>
      match validateIn.intLoop vInt (Split inStr ',') false with
      | none => ⟨some .ErrInvalidValidatorSyntax⟩
      | some flag => validateIn.finish flag
    | .str vString => validateIn.finish (validateIn.strLoop vString (Split inStr ',') false)
    | _ => validateIn.finish false
/-- The loop of validateIn over the elements of a slice, from index 0, with the
current flag, followed by the end of validateIn. -/
def validateInElems (xs : List Value) (inStr : String) (flag : Bool) : ValidationError :=
  match xs with
  | [] => validateIn.finish flag
  | x :: rest =>
    let valErr := validateIn x inStr
    if valErr.Err ≠ none then valErr else validateInElems rest inStr true
end

/-! ## Validate -/

/-- What Validate returns as its error: nil, a plain error value, or a
ValidationErrors slice. -/
inductive Returned
  | nil
  | err (e : error)
  | valErrs (es : ValidationErrors)
  deriving DecidableEq, Repr

/-- The switch on key in Validate; valErr is the variable the switch assigns
to, which keeps its value when no case matches. -/
def Validate.dispatch (key : String) (v : Value) (value : String)
    (valErr : ValidationError) : ValidationError :=
  if key = "len" then validateLen v value
  else if key = "min" then validateMin v value
  else if key = "max" then validateMax v value
  else if key = "in" then validateIn v value
  else valErr

/-- The loop of Validate over the fields from index i on, with the current values
of the variables valErrs and valErr (both declared before the loop), followed by
the end of Validate. -/
def Validate.fields : List (StructField Value) → ValidationErrors → ValidationError →
    Except Panic Returned
  | [], valErrs, _ =>
    if valErrs.length > 0 then .ok (.valErrs valErrs) else .ok .nil
  | f :: rest, valErrs, valErr =>
    if f.Tag = "" then Validate.fields rest valErrs valErr
    else if f.IsExported = false then
      .ok (.valErrs (valErrs ++ [⟨some .ErrValidateForUnexportedFields⟩]))
    else
      match Split f.Tag ':' with
      | key :: value :: _ =>
        let valErr := Validate.dispatch key f.value value valErr
        match valErr.Err with
        | some e =>
          let valErr : ValidationError :=
            if e ≠ .ErrInvalidValidatorSyntax then ⟨some (.Errorf f.Name e)⟩ else valErr
          Validate.fields rest (valErrs ++ [valErr]) valErr
        | none => Validate.fields rest valErrs valErr
      | _ => .error .indexOutOfRange

/-- The function Validate, on the reflect.Value of its argument. -/
def Validate (v : Value) : Except Panic Returned :=
  match Indirect v with
  | .struct fields => Validate.fields fields [] ⟨none⟩
  | _ => .ok (.err .ErrNotStruct)

/-! ## Notions used to state the properties -/

/-- The rule kinds. -/
def ruleKinds : List String := ["len", "min", "max", "in"]

/-- What the rule evaluator Validate calls for an annotated field returns: the
switch of Validate on the first part of the split tag, applied to the field value
and the second part, starting from a ValidationError with a nil Err. -/
def evaluatorResult (f : StructField Value) : ValidationError :=
  match Split f.Tag ':' with
  | key :: value :: _ => Validate.dispatch key f.value value ⟨none⟩
  | _ => ⟨none⟩

/-- The entry Validate appends for a field whose evaluator returned cause: the
syntax error as it is, any other cause wrapped with the name of the field. -/
def entryOf (f : StructField Value) (cause : error) : ValidationError :=
  if cause = .ErrInvalidValidatorSyntax then ⟨some .ErrInvalidValidatorSyntax⟩
  else ⟨some (.Errorf f.Name cause)⟩

/-- One entry for each annotated field whose evaluator returned an error, in the
order of the fields. -/
def reportedErrors (fs : List (StructField Value)) : ValidationErrors :=
  fs.filterMap fun f => if f.Tag = "" then none else (evaluatorResult f).Err.map (entryOf f)

/-- An annotated field is exported and its tag has the form kind:argument with a
kind among len, min, max and in. -/
def WellAnnotated (f : StructField Value) : Prop :=
  f.Tag ≠ "" → f.IsExported = true ∧ ∃ kind arg, f.Tag = kind ++ ":" ++ arg ∧ kind ∈ ruleKinds

/-- A record with three failing fields, one field without a tag and one passing
field. -/
def demoRecord : List (StructField Value) :=
  [⟨"Name", true, "len:3", .str "hi"⟩, ⟨"note", false, "", .str ""⟩,
   ⟨"Age", true, "min:5", .int 4⟩, ⟨"Role", true, "in:", .str "x"⟩,
   ⟨"Code", true, "max:9", .int 9⟩]

/-- The entry Validate appends for an annotated unexported field. -/
def unexportedEntry : ValidationError := ⟨some .ErrValidateForUnexportedFields⟩

/-- The messages of the errors, each followed by a line break, in list order. -/
def messageLines : List error → String
  | [] => ""
  | e :: es => e.Error ++ "\n" ++ messageLines es

/-- The number of line breaks in a text. -/
def lineBreaks (s : String) : Nat := s.data.count '\n'

/-- A text made of single-byte (ASCII) characters only. -/
def isASCII (s : String) : Prop := ∀ c ∈ s.data, c.toNat < 128

instance (s : String) : Decidable (isASCII s) := by
  unfold isASCII
  exact inferInstance

/-- The number a sequence of decimal digits denotes, continuing from n. -/
def decimalFrom (n : Nat) (ds : List Char) : Nat :=
  ds.foldl (fun m c => m * 10 + digitVal c) n

/-- The number a sequence of decimal digits denotes. -/
def decimalValue (ds : List Char) : Nat := decimalFrom 0 ds

/-- The text a is a base-10 notation of the 64-bit signed integer N: an optional
sign followed by one or more decimal digits whose value, with the sign, is N and
lies between -2^63 and 2^63 - 1. -/
def IsDecimalInt64 (a : String) (N : Int) : Prop :=
  ∃ ds : List Char, ds ≠ [] ∧ (∀ c ∈ ds, isDigit c = true) ∧
    (((a.data = ds ∨ a.data = '+' :: ds) ∧ N = (decimalValue ds : Int) ∧
        N ≤ 9223372036854775807) ∨
      (a.data = '-' :: ds ∧ N = -(decimalValue ds : Int) ∧ -9223372036854775808 ≤ N))

/-- The violation validateIn reports. -/
def notInSet : ValidationError := ⟨some (.New "value not in a valid set")⟩

/-- The result of a rule on the sequence xs is that of the first element, in index
order, on which the rule returns an error, and no error when there is no such
element. -/
def FirstFailure (rule : Value → ValidationError) (xs : List Value) : Prop :=
  ((rule (.slice xs)).Err = none ↔ ∀ x ∈ xs, (rule x).Err = none) ∧
  ∀ (pre : List Value) (x : Value) (post : List Value), xs = pre ++ x :: post →
    (∀ y ∈ pre, (rule y).Err = none) → (rule x).Err ≠ none → rule (.slice xs) = rule x

/-! ## Checks on concrete inputs -/

example : validateLen (.str "hi") "3" = ⟨some (.New "length of string is not equal")⟩ := by decide
example : validateLen (.str "abc") "3" = ⟨none⟩ := by decide
example : validateLen (.str "é") "1" = ⟨some (.New "length of string is not equal")⟩ := by decide
example : validateLen (.str "") "-1" = ⟨some (.New "length of string is not equal")⟩ := by decide
example : ParseInt "-9223372036854775808" = .ok (-9223372036854775808) := by decide
example : ParseInt "9223372036854775808" = .error .ErrRange := by decide
example : ParseInt "+12" = .ok 12 := by decide
example : ParseInt "1_2" = .error .ErrSyntax := by decide
example : Split "in:a:b" ':' = ["in", "a", "b"] := by decide
example : Split "len" ':' = ["len"] := by decide
example : validateIn (.slice []) "1,2" = ⟨some (.New "value not in a valid set")⟩ := by decide
example : validateIn (.int 2) "1,2,3" = ⟨none⟩ := by decide
example : validateIn (.int 1) "1,x" = ⟨some .ErrInvalidValidatorSyntax⟩ := by decide
example : Validate (.struct [⟨"A", true, "len:3", .str "hi"⟩, ⟨"B", true, "foo:1", .str "x"⟩]) =
    .ok (.valErrs [⟨some (.Errorf "A" (.New "length of string is not equal"))⟩,
      ⟨some (.Errorf "B" (.Errorf "A" (.New "length of string is not equal")))⟩]) := by decide
example : Validate (.struct [⟨"A", true, "len", .str "hi"⟩]) = .error .indexOutOfRange := by decide
example : Validate (.ptr (some (.int 3))) = .ok (.err .ErrNotStruct) := by decide

/-! ## Lemmas on strings.Split -/

theorem splitChars_ne_nil (sep : Char) (cs : List Char) : splitChars sep cs ≠ [] := by
  induction cs with
  | nil => simp [splitChars]
  | cons c cs ih =>
    unfold splitChars
    split
    · simp
    · split <;> simp

theorem splitChars_append_sep (sep : Char) (p rest : List Char) (hp : sep ∉ p) :
    splitChars sep (p ++ sep :: rest) = p :: splitChars sep rest := by
  induction p with
  | nil => simp [splitChars]
  | cons c cs ih =>
    have hc : c ≠ sep := fun h => hp (by simp [h])
    have hcs : sep ∉ cs := fun h => hp (by simp [h])
    simp [splitChars, hc, ih hcs]

theorem splitChars_of_not_mem (sep : Char) (p : List Char) (hp : sep ∉ p) :
    splitChars sep p = [p] := by
  induction p with
  | nil => simp [splitChars]
  | cons c cs ih =>
    have hc : c ≠ sep := fun h => hp (by simp [h])
    have hcs : sep ∉ cs := fun h => hp (by simp [h])
    simp [splitChars, hc, ih hcs]

theorem Split_kind_arg (kind arg : String) (hk : ':' ∉ kind.data) :
    Split (kind ++ ":" ++ arg) ':' = kind :: Split arg ':' := by
  unfold Split
  have : (kind ++ ":" ++ arg).data = kind.data ++ ':' :: arg.data := by
    simp [String.data_append]
  rw [this, splitChars_append_sep _ _ _ hk]
  simp

theorem Split_of_not_mem (arg : String) (h : ':' ∉ arg.data) : Split arg ':' = [arg] := by
  unfold Split
  rw [splitChars_of_not_mem _ _ h]
  simp

theorem Split_ne_nil (s : String) (sep : Char) : Split s sep ≠ [] := by
  unfold Split
  simp [splitChars_ne_nil]

theorem ruleKinds_no_colon (kind : String) (h : kind ∈ ruleKinds) : ':' ∉ kind.data := by
  simp [ruleKinds] at h
  rcases h with h | h | h | h <;> subst h <;> decide

theorem dispatch_ruleKind (kind : String) (h : kind ∈ ruleKinds) (v : Value) (value : String)
    (valErr valErr2 : ValidationError) :
    Validate.dispatch kind v value valErr = Validate.dispatch kind v value valErr2 := by
  simp [ruleKinds] at h
  rcases h with h | h | h | h <;> subst h <;> simp [Validate.dispatch]

theorem Split_wellAnnotated (tag kind arg : String) (h : tag = kind ++ ":" ++ arg)
    (hk : kind ∈ ruleKinds) : ∃ value rest, Split tag ':' = kind :: value :: rest := by
  subst h
  rw [Split_kind_arg _ _ (ruleKinds_no_colon _ hk)]
  cases hs : Split arg ':' with
  | nil => exact absurd hs (Split_ne_nil _ _)
  | cons value rest => exact ⟨value, rest, rfl⟩

theorem Validate.fields_wellAnnotated (fs : List (StructField Value))
    (h : ∀ f ∈ fs, WellAnnotated f) (valErrs : ValidationErrors) (valErr : ValidationError) :
    Validate.fields fs valErrs valErr =
      .ok (if valErrs ++ reportedErrors fs = [] then .nil
        else .valErrs (valErrs ++ reportedErrors fs)) := by
  induction fs generalizing valErrs valErr with
  | nil =>
    cases valErrs <;> simp [Validate.fields, reportedErrors]
  | cons f rest ih =>
    have hrest : ∀ g ∈ rest, WellAnnotated g := fun g hg => h g (by simp [hg])
    by_cases htag : f.Tag = ""
    · simp [Validate.fields, reportedErrors, htag, ih hrest]
    · obtain ⟨hexp, kind, arg, hta, hk⟩ := h f (by simp) htag
      obtain ⟨value, more, hsplit⟩ := Split_wellAnnotated _ _ _ hta hk
      have hev : evaluatorResult f = Validate.dispatch kind f.value value valErr := by
        simp only [evaluatorResult, hsplit]
        exact dispatch_ruleKind _ hk _ _ _ _
      unfold Validate.fields
      simp only [htag, hexp, hsplit, if_false]
      rw [← hev]
      cases hres : (evaluatorResult f).Err with
      | none =>
        simp [ih hrest, reportedErrors, htag, hres]
      | some e =>
        simp [ih hrest, reportedErrors, htag, hres, entryOf]
        by_cases he : e = .ErrInvalidValidatorSyntax
        · subst he
          have : evaluatorResult f = ⟨some .ErrInvalidValidatorSyntax⟩ := by
            cases hh : evaluatorResult f
            simp [hh] at hres
            simp [hres]
          simp [this]
        · simp [he]


theorem reportedErrors_eq_nil (fs : List (StructField Value)) :
    reportedErrors fs = [] ↔ ∀ f ∈ fs, f.Tag ≠ "" → (evaluatorResult f).Err = none := by
  unfold reportedErrors
  rw [List.filterMap_eq_nil_iff]
  constructor
  · intro h f hf htag
    have := h f hf
    simp [htag] at this
    exact this
  · intro h f hf
    by_cases htag : f.Tag = ""
    · simp [htag]
    · simp [htag, h f hf htag]

theorem evaluatorResult_of_form (f : StructField Value) (kind arg : String)
    (h : f.Tag = kind ++ ":" ++ arg) (hk : ':' ∉ kind.data) (ha : ':' ∉ arg.data) :
    evaluatorResult f = Validate.dispatch kind f.value arg ⟨none⟩ := by
  simp [evaluatorResult, h, Split_kind_arg _ _ hk, Split_of_not_mem _ ha]

/-- C1: for a struct whose annotated fields are all exported and tagged
kind:argument with kind among len, min, max and in, Validate returns nil when no
annotated field's evaluator returns an error, and otherwise the non-empty list
holding, in field order, one entry per annotated field whose evaluator returned an
error: the cause wrapped as "validation error: field NAME: cause", or the bare
syntax error.  Validate returns nil exactly when no evaluator fails, it never
returns an empty list, and for a tag kind:argument whose argument has no further
colon the evaluator result is the named rule applied to the argument. -/
theorem Validate_reports_every_failing_field (fs : List (StructField Value))
    (h : ∀ f ∈ fs, WellAnnotated f) :
    Validate (.struct fs) =
        .ok (if reportedErrors fs = [] then .nil else .valErrs (reportedErrors fs))
    ∧ (Validate (.struct fs) = .ok .nil ↔
        ∀ f ∈ fs, f.Tag ≠ "" → (evaluatorResult f).Err = none)
    ∧ Validate (.struct fs) ≠ .ok (.valErrs [])
    ∧ (∀ (name : String) (cause : error), (error.Errorf name cause).Error =
        "validation error: field " ++ name ++ ": " ++ cause.Error)
    ∧ (∀ f ∈ fs, ∀ arg : String, ':' ∉ arg.data →
        (f.Tag = "len:" ++ arg → evaluatorResult f = validateLen f.value arg) ∧
        (f.Tag = "min:" ++ arg → evaluatorResult f = validateMin f.value arg) ∧
        (f.Tag = "max:" ++ arg → evaluatorResult f = validateMax f.value arg) ∧
        (f.Tag = "in:" ++ arg → evaluatorResult f = validateIn f.value arg)) := by
  have hv : Validate (.struct fs) =
      .ok (if reportedErrors fs = [] then .nil else .valErrs (reportedErrors fs)) := by
    simp only [Validate, Indirect]
    rw [Validate.fields_wellAnnotated fs h]
    simp
  refine ⟨hv, ?_, ?_, fun _ _ => rfl, ?_⟩
  · rw [hv, ← reportedErrors_eq_nil]
    by_cases hr : reportedErrors fs = [] <;> simp [hr]
  · rw [hv]
    by_cases hr : reportedErrors fs = [] <;> simp [hr]
  · intro f _ arg ha
    refine ⟨?_, ?_, ?_, ?_⟩ <;> intro htag
    · have := evaluatorResult_of_form f "len" arg htag (by decide) ha
      simpa [Validate.dispatch] using this
    · have := evaluatorResult_of_form f "min" arg htag (by decide) ha
      simpa [Validate.dispatch] using this
    · have := evaluatorResult_of_form f "max" arg htag (by decide) ha
      simpa [Validate.dispatch] using this
    · have := evaluatorResult_of_form f "in" arg htag (by decide) ha
      simpa [Validate.dispatch] using this

theorem Validate_reports_every_failing_field_witness :
    (∀ f ∈ demoRecord, WellAnnotated f) ∧
    Validate (.struct demoRecord) = .ok (.valErrs
      [⟨some (.Errorf "Name" (.New "length of string is not equal"))⟩,
       ⟨some (.Errorf "Age" (.New "value is less than allowed"))⟩,
       ⟨some .ErrInvalidValidatorSyntax⟩]) := by
  have hw : ∀ f ∈ demoRecord, WellAnnotated f := by
    intro f hf htag
    simp [demoRecord] at hf
    rcases hf with rfl | rfl | rfl | rfl | rfl
    · exact ⟨rfl, "len", "3", by decide, by decide⟩
    · exact absurd rfl htag
    · exact ⟨rfl, "min", "5", by decide, by decide⟩
    · exact ⟨rfl, "in", "", by decide, by decide⟩
    · exact ⟨rfl, "max", "9", by decide, by decide⟩
  refine ⟨hw, ?_⟩
  rw [(Validate_reports_every_failing_field demoRecord hw).1]
  decide

theorem Validate.fields_skip_unannotated (pre : List (StructField Value))
    (f : StructField Value) (post : List (StructField Value)) (hf : f.Tag = "")
    (valErrs : ValidationErrors) (valErr : ValidationError) :
    Validate.fields (pre ++ f :: post) valErrs valErr =
      Validate.fields (pre ++ post) valErrs valErr := by
  induction pre generalizing valErrs valErr with
  | nil => simp [Validate.fields, hf]
  | cons g rest ih =>
    simp only [List.cons_append, Validate.fields, List.append_eq, ih]

theorem Validate.fields_unexported (pre : List (StructField Value))
    (u : StructField Value) (post : List (StructField Value))
    (hu : u.Tag ≠ "") (hx : u.IsExported = false)
    (hpre : ∀ f ∈ pre, f.Tag ≠ "" → f.IsExported = true ∧ 2 ≤ (Split f.Tag ':').length)
    (valErrs : ValidationErrors) (valErr : ValidationError) :
    ∃ acc : ValidationErrors,
      Validate.fields (pre ++ u :: post) valErrs valErr =
        .ok (.valErrs (valErrs ++ acc ++ [unexportedEntry])) ∧
      Validate.fields pre valErrs valErr =
        .ok (if valErrs ++ acc = [] then .nil else .valErrs (valErrs ++ acc)) := by
  induction pre generalizing valErrs valErr with
  | nil =>
    refine ⟨[], ?_, ?_⟩
    · simp [Validate.fields, hu, hx, unexportedEntry]
    · cases valErrs <;> simp [Validate.fields]
  | cons g rest ih =>
    have hrest : ∀ f ∈ rest, f.Tag ≠ "" → f.IsExported = true ∧ 2 ≤ (Split f.Tag ':').length :=
      fun f hf => hpre f (by simp [hf])
    by_cases hg : g.Tag = ""
    · obtain ⟨acc, h1, h2⟩ := ih hrest valErrs valErr
      exact ⟨acc, by simp [Validate.fields, hg, h1], by simp [Validate.fields, hg, h2]⟩
    · obtain ⟨hexp, hlen⟩ := hpre g (by simp) hg
      obtain ⟨key, value, more, hsplit⟩ : ∃ key value more, Split g.Tag ':' = key :: value :: more := by
        match hs : Split g.Tag ':' with
        | [] => simp [hs] at hlen
        | [_] => simp [hs] at hlen
        | key :: value :: more => exact ⟨key, value, more, rfl⟩
      cases hres : (Validate.dispatch key g.value value valErr).Err with
      | none =>
        obtain ⟨acc, h1, h2⟩ := ih hrest valErrs (Validate.dispatch key g.value value valErr)
        refine ⟨acc, ?_, ?_⟩
        · simp only [List.cons_append, Validate.fields, hg, hexp, hsplit, hres, if_false]
          simpa using h1
        · simp only [Validate.fields, hg, hexp, hsplit, hres, if_false]
          simpa using h2
      | some e =>
        obtain ⟨acc, h1, h2⟩ := ih hrest
          (valErrs ++ [if e ≠ .ErrInvalidValidatorSyntax then ⟨some (.Errorf g.Name e)⟩
            else Validate.dispatch key g.value value valErr])
          (if e ≠ .ErrInvalidValidatorSyntax then ⟨some (.Errorf g.Name e)⟩
            else Validate.dispatch key g.value value valErr)
        refine ⟨(if e ≠ .ErrInvalidValidatorSyntax then ⟨some (.Errorf g.Name e)⟩
            else Validate.dispatch key g.value value valErr) :: acc, ?_, ?_⟩
        · simp only [List.cons_append, Validate.fields, hg, hexp, hsplit, hres, if_false]
          simpa using h1
        · simp only [Validate.fields, hg, hexp, hsplit, hres, if_false]
          simpa using h2

theorem Validate.fields_ne_err (fs : List (StructField Value)) (valErrs : ValidationErrors)
    (valErr : ValidationError) (e : error) :
    Validate.fields fs valErrs valErr ≠ .ok (.err e) := by
  induction fs generalizing valErrs valErr with
  | nil =>
    unfold Validate.fields
    split <;> simp
  | cons f rest ih =>
    unfold Validate.fields
    split
    · exact ih _ _
    · split
      · simp
      · split
        · dsimp only
          split
          · exact ih _ _
          · exact ih _ _
        · simp

/-- C4: Validate returns ErrNotStruct exactly when its argument, after one level of
indirection, is not of kind Struct. -/
theorem Validate_ErrNotStruct_iff (v : Value) :
    Validate v = .ok (.err .ErrNotStruct) ↔ (Indirect v).Kind ≠ Kind.Struct := by
  unfold Validate
  cases hv : Indirect v with
  | struct fields => simp [Value.Kind, Validate.fields_ne_err]
  | _ => simp [Value.Kind]


/-- C2: evaluation of Validate on a record whose first field fails len:3 and whose
second field carries the unknown kind foo: the second field adds an entry that
repeats the first field's error under its own name, whereas the same record with
the second tag removed yields the single entry of the first field, and the second
field alone yields nil. -/
theorem Validate_unknown_kind_repeats_earlier_error :
    Validate (.struct [⟨"Name", true, "len:3", .str "hi"⟩, ⟨"Note", true, "foo:1", .str "x"⟩]) =
      .ok (.valErrs [⟨some (.Errorf "Name" (.New "length of string is not equal"))⟩,
        ⟨some (.Errorf "Note" (.Errorf "Name" (.New "length of string is not equal")))⟩]) ∧
    Validate (.struct [⟨"Name", true, "len:3", .str "hi"⟩, ⟨"Note", true, "", .str "x"⟩]) =
      .ok (.valErrs [⟨some (.Errorf "Name" (.New "length of string is not equal"))⟩]) ∧
    Validate (.struct [⟨"Note", true, "foo:1", .str "x"⟩]) = .ok .nil := by
  decide

/-- C3, as stated, fails: with a failing field before the annotated unexported
field, Validate returns two entries, the earlier error and then the
unexported-field error, not the unexported-field error alone. -/
theorem Validate_unexported_not_single_entry :
    Validate (.struct [⟨"Name", true, "len:3", .str "hi"⟩, ⟨"secret", false, "min:1", .int 0⟩,
        ⟨"Age", true, "min:5", .int 4⟩]) =
      .ok (.valErrs [⟨some (.Errorf "Name" (.New "length of string is not equal"))⟩,
        ⟨some .ErrValidateForUnexportedFields⟩]) ∧
    Validate (.struct [⟨"Name", true, "len:3", .str "hi"⟩, ⟨"secret", false, "min:1", .int 0⟩,
        ⟨"Age", true, "min:5", .int 4⟩]) ≠
      .ok (.valErrs [⟨some .ErrValidateForUnexportedFields⟩]) := by
  decide

/-- C3, amended: when the first annotated unexported field u comes after fields
whose tags, if any, sit on exported fields and contain a colon, Validate returns
the entries accumulated for the earlier fields (exactly what Validate reports for
the record made of the earlier fields alone) followed by one entry whose cause is
ErrValidateForUnexportedFields; that is the single entry when no earlier field
failed; the fields after u have no influence; and a field without a tag, exported
or not, is skipped. -/
theorem Validate_unexported_field (pre : List (StructField Value)) (u : StructField Value)
    (post : List (StructField Value)) (hu : u.Tag ≠ "") (hx : u.IsExported = false)
    (hpre : ∀ f ∈ pre, f.Tag ≠ "" → f.IsExported = true ∧ 2 ≤ (Split f.Tag ':').length) :
    (∃ acc : ValidationErrors,
      Validate (.struct (pre ++ u :: post)) = .ok (.valErrs (acc ++ [unexportedEntry])) ∧
      Validate (.struct pre) = .ok (if acc = [] then .nil else .valErrs acc)) ∧
    (Validate (.struct pre) = .ok .nil →
      Validate (.struct (pre ++ u :: post)) = .ok (.valErrs [unexportedEntry])) ∧
    (∀ later : List (StructField Value),
      Validate (.struct (pre ++ u :: later)) = Validate (.struct (pre ++ u :: post))) ∧
    (∀ (before after : List (StructField Value)) (f : StructField Value), f.Tag = "" →
      Validate (.struct (before ++ f :: after)) = Validate (.struct (before ++ after))) := by
  have key : ∀ later : List (StructField Value), ∃ acc : ValidationErrors,
      Validate (.struct (pre ++ u :: later)) = .ok (.valErrs (acc ++ [unexportedEntry])) ∧
      Validate (.struct pre) = .ok (if acc = [] then .nil else .valErrs acc) := by
    intro later
    obtain ⟨acc, h1, h2⟩ := Validate.fields_unexported pre u later hu hx hpre [] ⟨none⟩
    exact ⟨acc, by simpa [Validate, Indirect] using h1, by simpa [Validate, Indirect] using h2⟩
  have same : ∀ a b : ValidationErrors,
      (Except.ok (if a = [] then Returned.nil else .valErrs a) : Except Panic Returned) =
        .ok (if b = [] then Returned.nil else .valErrs b) → a = b := by
    intro a b hab
    by_cases ha : a = [] <;> by_cases hb : b = [] <;> simp_all
  refine ⟨key post, ?_, ?_, ?_⟩
  · intro hnil
    obtain ⟨acc, h1, h2⟩ := key post
    have : acc = [] := by
      rw [hnil] at h2
      by_cases ha : acc = []
      · exact ha
      · simp [ha] at h2
    simpa [this] using h1
  · intro later
    obtain ⟨a, h1, h2⟩ := key later
    obtain ⟨b, h3, h4⟩ := key post
    have : a = b := same a b (h2.symm.trans h4)
    rw [h1, h3, this]
  · intro before after f hf
    simp only [Validate, Indirect]
    exact Validate.fields_skip_unannotated before f after hf [] ⟨none⟩

theorem Validate_unexported_field_witness :
    ∃ acc : ValidationErrors,
      Validate (.struct ([⟨"Name", true, "len:3", .str "hi"⟩] ++
        ⟨"secret", false, "min:1", .int 0⟩ :: [⟨"Age", true, "min:5", .int 4⟩])) =
          .ok (.valErrs (acc ++ [unexportedEntry])) ∧
      Validate (.struct [⟨"Name", true, "len:3", .str "hi"⟩]) =
        .ok (if acc = [] then .nil else .valErrs acc) :=
  (Validate_unexported_field [⟨"Name", true, "len:3", .str "hi"⟩]
    ⟨"secret", false, "min:1", .int 0⟩ [⟨"Age", true, "min:5", .int 4⟩] (by decide) rfl
    (by
      intro f hf _
      simp at hf
      subst hf
      exact ⟨rfl, by decide⟩)).1

/-- C5: evaluation of Validate on a record whose first annotated field is exported
and has a non-empty tag without a colon: the access to the second split part is
out of range and Validate panics instead of returning a syntax error. -/
theorem Validate_tag_without_separator_panics (pre : List (StructField Value))
    (f : StructField Value) (post : List (StructField Value))
    (hpre : ∀ g ∈ pre, g.Tag = "") (hf : f.Tag ≠ "") (hexp : f.IsExported = true)
    (hsep : ':' ∉ f.Tag.data) :
    Validate (.struct (pre ++ f :: post)) = .error .indexOutOfRange := by
  simp only [Validate, Indirect]
  generalize ([] : ValidationErrors) = valErrs
  generalize (⟨none⟩ : ValidationError) = valErr
  induction pre with
  | nil => simp [Validate.fields, hf, hexp, Split_of_not_mem _ hsep]
  | cons g rest ih =>
    have hg : g.Tag = "" := hpre g (by simp)
    simp only [List.cons_append, Validate.fields, hg, if_true, List.append_eq]
    exact ih (fun g hg => hpre g (by simp [hg]))

theorem Validate_tag_without_separator_panics_witness :
    Validate (.struct ([⟨"id", false, "", .int 7⟩] ++ ⟨"Name", true, "len", .str "abc"⟩ ::
      [⟨"Age", true, "min:5", .int 4⟩])) = .error .indexOutOfRange :=
  Validate_tag_without_separator_panics [⟨"id", false, "", .int 7⟩]
    ⟨"Name", true, "len", .str "abc"⟩ [⟨"Age", true, "min:5", .int 4⟩]
    (by intro g hg; simp at hg; subst hg; rfl) (by decide) rfl (by decide)

theorem ValidationErrors.Error.loop_map (es : List error) (valRes : String) :
    ValidationErrors.Error.loop (es.map fun x => ⟨some x⟩) valRes =
      .ok (valRes ++ messageLines es) := by
  induction es generalizing valRes with
  | nil => simp [ValidationErrors.Error.loop, messageLines]
  | cons e es ih =>
    simp [ValidationErrors.Error.loop, messageLines, ih, String.append_assoc]

theorem lineBreaks_append (s t : String) : lineBreaks (s ++ t) = lineBreaks s + lineBreaks t := by
  simp [lineBreaks, String.data_append]

theorem lineBreaks_messageLines (es : List error) :
    lineBreaks (messageLines es) = (es.map fun x => lineBreaks x.Error).sum + es.length := by
  induction es with
  | nil => simp [messageLines, lineBreaks]
  | cons e es ih =>
    simp only [messageLines, lineBreaks_append, ih, List.map_cons, List.sum_cons, List.length_cons]
    have : lineBreaks "\n" = 1 := by decide
    omega

theorem messageLines_getLast (es : List error) (h : es ≠ []) :
    (messageLines es).data.getLast? = some '\n' := by
  induction es with
  | nil => exact absurd rfl h
  | cons e es ih =>
    cases es with
    | nil => simp [messageLines, String.data_append]
    | cons e2 rest =>
      have := ih (by simp)
      rw [messageLines, String.data_append, List.getLast?_append, this]
      simp

/-- C6: ValidationErrors.Error returns the message of the single error verbatim
for a list of one error; for a list of two or more errors it returns the messages
in list order, each followed by a line break, a text that ends with a line break
and has as many line breaks as the messages have plus the length of the list; and
it returns the empty text for the empty list. -/
theorem ValidationErrors_Error_message (e : error) (es : List error) (h : 2 ≤ es.length) :
    ValidationErrors.Error [⟨some e⟩] = .ok e.Error ∧
    ValidationErrors.Error (es.map fun x => ⟨some x⟩) = .ok (messageLines es) ∧
    (messageLines es).data.getLast? = some '\n' ∧
    lineBreaks (messageLines es) = (es.map fun x => lineBreaks x.Error).sum + es.length ∧
    ValidationErrors.Error [] = .ok "" := by
  refine ⟨rfl, ?_, ?_, lineBreaks_messageLines es, rfl⟩
  · match es, h with
    | e1 :: e2 :: rest, _ =>
      have := ValidationErrors.Error.loop_map (e1 :: e2 :: rest) ""
      simpa [ValidationErrors.Error] using this
  · apply messageLines_getLast
    intro hnil
    simp [hnil] at h

theorem ValidationErrors_Error_message_witness :
    ValidationErrors.Error [⟨some (.New "a")⟩, ⟨some .ErrInvalidValidatorSyntax⟩] =
      .ok "a\ninvalid validator syntax\n" :=
  (ValidationErrors_Error_message .ErrNotStruct [.New "a", .ErrInvalidValidatorSyntax]
    (by decide)).2.1

theorem utf8Size_of_ascii (c : Char) (h : c.toNat < 128) : c.utf8Size = 1 := by
  have hv : c.val ≤ 127 := by
    rw [UInt32.le_def]
    simp only [Char.toNat] at h
    show c.val.toNat ≤ 127
    omega
  simp [Char.utf8Size, hv]

theorem utf8ByteSize_go_ascii (cs : List Char) (h : ∀ c ∈ cs, c.toNat < 128) :
    String.utf8ByteSize.go cs = cs.length := by
  induction cs with
  | nil => rfl
  | cons c cs ih =>
    rw [String.utf8ByteSize.go, ih (fun d hd => h d (by simp [hd])),
      utf8Size_of_ascii c (h c (by simp)), List.length_cons]

theorem utf8ByteSize_of_isASCII (s : String) (h : isASCII s) : s.utf8ByteSize = s.length := by
  cases s with
  | mk cs => exact utf8ByteSize_go_ascii cs h

theorem utf8ByteSize_eq_zero (s : String) : s.utf8ByteSize = 0 ↔ s = "" := by
  cases s with
  | mk cs =>
    cases cs with
    | nil => simp [String.utf8ByteSize, String.utf8ByteSize.go]
    | cons c cs =>
      have := Char.utf8Size_pos c
      simp [String.utf8ByteSize, String.utf8ByteSize.go, String.ext_iff]
      omega

theorem decimalFrom_ge (ds : List Char) (n : Nat) : n ≤ decimalFrom n ds := by
  induction ds generalizing n with
  | nil => simp [decimalFrom]
  | cons c cs ih =>
    have := ih (n * 10 + digitVal c)
    simp only [decimalFrom, List.foldl_cons] at this ⊢
    omega

theorem ParseUint.loop_digits (ds : List Char) (h : ∀ c ∈ ds, isDigit c = true) (n : Nat)
    (hn : n ≤ maxUint64) :
    ParseUint.loop ds n =
      if decimalFrom n ds ≤ maxUint64 then .ok (decimalFrom n ds) else .error .ErrRange := by
  induction ds generalizing n with
  | nil =>
    simp [ParseUint.loop, decimalFrom, hn]
  | cons c cs ih =>
    have hc : isDigit c = true := h c (by simp)
    have hcs : ∀ d ∈ cs, isDigit d = true := fun d hd => h d (by simp [hd])
    have hge := decimalFrom_ge cs (n * 10 + digitVal c)
    have hd : digitVal c ≤ 9 := by
      simp [isDigit] at hc
      simp [digitVal]
      omega
    have hstep : decimalFrom n (c :: cs) = decimalFrom (n * 10 + digitVal c) cs := rfl
    rw [hstep]
    simp only [ParseUint.loop, hc, maxUint64] at *
    by_cases h1 : n ≥ 18446744073709551615 / 10 + 1
    · have : ¬ decimalFrom (n * 10 + digitVal c) cs ≤ 18446744073709551615 := by omega
      simp [h1, this]
    · by_cases h2 : n * 10 + digitVal c ≥ 18446744073709551616
      · have h3 : (n * 10 + digitVal c) % 18446744073709551616 < n * 10 := by omega
        have : ¬ decimalFrom (n * 10 + digitVal c) cs ≤ 18446744073709551615 := by omega
        simp [h1, h3, this]
      · have h3 : (n * 10 + digitVal c) % 18446744073709551616 = n * 10 + digitVal c := by omega
        have h4 : ¬ (n * 10 + digitVal c < n * 10 ∨ n * 10 + digitVal c > 18446744073709551615) := by
          omega
        simp only [h1, h3, h4, if_false]
        exact ih hcs _ (by omega)


theorem ParseUint.loop_nondigit (ds : List Char) (h : ∃ c ∈ ds, isDigit c = false) (n : Nat) :
    ∃ e, ParseUint.loop ds n = .error e := by
  induction ds generalizing n with
  | nil => simp at h
  | cons c cs ih =>
    by_cases hc : isDigit c = false
    · exact ⟨.ErrSyntax, by simp [ParseUint.loop, hc]⟩
    · have hcs : ∃ d ∈ cs, isDigit d = false := by
        obtain ⟨d, hd, hdd⟩ := h
        simp at hd
        rcases hd with rfl | hd
        · exact absurd hdd hc
        · exact ⟨d, hd, hdd⟩
      have hc2 : isDigit c = true := by simpa using hc
      by_cases h1 : n ≥ maxUint64 / 10 + 1
      · exact ⟨.ErrRange, by simp only [ParseUint.loop, hc2, h1]; rfl⟩
      · by_cases h2 : (n * 10 + digitVal c) % 18446744073709551616 < n * 10 ∨
            (n * 10 + digitVal c) % 18446744073709551616 > maxUint64
        · exact ⟨.ErrRange, by simp only [ParseUint.loop, hc2, h1, h2]; rfl⟩
        · obtain ⟨e, he⟩ := ih hcs ((n * 10 + digitVal c) % 18446744073709551616)
          exact ⟨e, by simp only [ParseUint.loop, hc2, h1, h2, he]; rfl⟩

theorem ParseUint_ok_iff (s : List Char) (un : Nat) :
    ParseUint s = .ok un ↔
      s ≠ [] ∧ (∀ c ∈ s, isDigit c = true) ∧ un = decimalValue s ∧ un ≤ maxUint64 := by
  cases s with
  | nil => simp [ParseUint]
  | cons c cs =>
    simp only [ParseUint]
    by_cases hall : ∀ d ∈ c :: cs, isDigit d = true
    · rw [ParseUint.loop_digits _ hall 0 (by simp [maxUint64])]
      simp only [decimalValue]
      by_cases hle : decimalFrom 0 (c :: cs) ≤ maxUint64
      · simp only [hle, if_true, Except.ok.injEq]
        constructor
        · intro h
          exact ⟨by simp, hall, h.symm, h ▸ hle⟩
        · intro h
          exact h.2.2.1.symm
      · simp only [hle, if_false]
        constructor
        · intro h
          cases h
        · intro h
          exact absurd (h.2.2.1 ▸ h.2.2.2) hle
    · have hex : ∃ d ∈ c :: cs, isDigit d = false := by
        by_contra hne
        apply hall
        intro d hd
        by_contra hdd
        exact hne ⟨d, hd, by simpa using hdd⟩
      obtain ⟨e, he⟩ := ParseUint.loop_nondigit _ hex 0
      rw [he]
      constructor
      · intro h
        cases h
      · intro h
        exact absurd h.2.1 hall

theorem ParseInt_cons (a : String) (c : Char) (cs : List Char) (h : a.data = c :: cs) :
    ParseInt a =
      match ParseUint (if c = '+' ∨ c = '-' then cs else c :: cs) with
      | .error e => .error e
      | .ok un =>
        if c = '-' then
          (if un > 9223372036854775808 then .error .ErrRange else .ok (-(un : Int)))
        else (if un ≥ 9223372036854775808 then .error .ErrRange else .ok (un : Int)) := by
  unfold ParseInt
  rw [h]
  dsimp only
  cases hp : ParseUint (if c = '+' ∨ c = '-' then cs else c :: cs) with
  | error e =>
    cases e with
    | ErrSyntax => rfl
    | ErrRange =>
      by_cases hc : c = '-' <;> simp [hc, maxUint64]
  | ok un =>
    by_cases hc : c = '-'
    · by_cases hu : un > 9223372036854775808
      · simp [hc, hu]
      · have e1 : toInt64 (-(toInt64 (un : Int))) = -(un : Int) := by
          simp only [toInt64]
          omega
        simp [hc, hu, e1]
    · by_cases hu : un ≥ 9223372036854775808
      · simp [hc, hu]
      · have e2 : toInt64 (un : Int) = (un : Int) := by
          simp only [toInt64]
          omega
        simp [hc, hu, e2]


theorem isDigit_ne_sign (c : Char) (h : isDigit c = true) : c ≠ '+' ∧ c ≠ '-' := by
  constructor <;> intro hc <;> subst hc <;> exact absurd h (by decide)

theorem ParseInt_of_isDecimal (a : String) (N : Int) (h : IsDecimalInt64 a N) :
    ParseInt a = .ok N := by
  obtain ⟨ds, hne, hdig, hcase⟩ := h
  rcases hcase with ⟨hform, hN, hle⟩ | ⟨hform, hN, hge⟩
  · have hu : ParseUint ds = .ok (decimalValue ds) :=
      (ParseUint_ok_iff ds _).2 ⟨hne, hdig, rfl, by simp only [maxUint64]; omega⟩
    have hlt : ¬ decimalValue ds ≥ 9223372036854775808 := by omega
    rcases hform with hform | hform
    · cases ds with
      | nil => exact absurd rfl hne
      | cons c cs =>
        obtain ⟨h1, h2⟩ := isDigit_ne_sign c (hdig c (by simp))
        rw [ParseInt_cons a c cs hform]
        simp only [h1, h2, or_self, if_false, hu, hlt, hN]
    · rw [ParseInt_cons a '+' ds hform]
      have hpm : ('+' : Char) ≠ '-' := by decide
      simp only [true_or, if_true, hu, hpm, if_false, hlt, hN]
  · have hu : ParseUint ds = .ok (decimalValue ds) :=
      (ParseUint_ok_iff ds _).2 ⟨hne, hdig, rfl, by simp only [maxUint64]; omega⟩
    have hlt : ¬ decimalValue ds > 9223372036854775808 := by omega
    rw [ParseInt_cons a '-' ds hform]
    simp only [or_true, if_true, hu, hlt, if_false, hN]

theorem isDecimal_of_ParseInt (a : String) (N : Int) (h : ParseInt a = .ok N) :
    IsDecimalInt64 a N := by
  cases hd : a.data with
  | nil => simp [ParseInt, hd] at h
  | cons c cs =>
    rw [ParseInt_cons a c cs hd] at h
    cases hp : ParseUint (if c = '+' ∨ c = '-' then cs else c :: cs) with
    | error e => simp [hp] at h
    | ok un =>
      obtain ⟨hne, hdig, hval, _⟩ := (ParseUint_ok_iff _ _).1 hp
      simp only [hp] at h
      by_cases hm : c = '-'
      · subst hm
        simp only [or_true, if_true] at hne hdig hval
        by_cases hu : un > 9223372036854775808
        · simp [hu] at h
        · simp only [if_true, hu, if_false, Except.ok.injEq] at h
          exact ⟨cs, hne, hdig, Or.inr ⟨hd, by omega, by omega⟩⟩
      · by_cases hu : un ≥ 9223372036854775808
        · simp [hm, hu] at h
        · simp only [hm, if_false, hu, Except.ok.injEq] at h
          by_cases hpl : c = '+'
          · subst hpl
            simp only [true_or, if_true] at hne hdig hval
            exact ⟨cs, hne, hdig, Or.inl ⟨Or.inr hd, by omega, by omega⟩⟩
          · simp only [hpl, hm, or_self, if_false] at hne hdig hval
            exact ⟨c :: cs, hne, hdig, Or.inl ⟨Or.inl hd, by omega, by omega⟩⟩

theorem ParseInt_ok_iff (a : String) (N : Int) : ParseInt a = .ok N ↔ IsDecimalInt64 a N :=
  ⟨isDecimal_of_ParseInt a N, ParseInt_of_isDecimal a N⟩

theorem ParseInt_error_iff (a : String) :
    (∃ e, ParseInt a = .error e) ↔ ¬ ∃ N, IsDecimalInt64 a N := by
  constructor
  · rintro ⟨e, he⟩ ⟨N, hN⟩
    rw [ParseInt_of_isDecimal a N hN] at he
    cases he
  · intro h
    cases hp : ParseInt a with
    | error e => exact ⟨e, rfl⟩
    | ok N => exact absurd ⟨N, isDecimal_of_ParseInt a N hp⟩ h

theorem validateLen_str (s a : String) (N : Int) (h : Atoi a = .ok N) :
    validateLen (.str s) a =
      if (s.utf8ByteSize : Int) ≠ N then ⟨some (.New "length of string is not equal")⟩
      else ⟨none⟩ := by
  rw [validateLen, h]

theorem validateMin_of_ok (v : Value) (a : String) (N : Int) (h : ParseInt a = .ok N) :
    validateMin v a =
      match v with
      | .slice xs => validateMinElems xs a
      | .int x => if x < N then ⟨some (.New "value is less than allowed")⟩ else ⟨none⟩
      | .str s =>
        if s.utf8ByteSize = 0 then ⟨some (.New "empty text")⟩
        else if (s.utf8ByteSize : Int) < N then ⟨some (.New "len of string is less than allowed")⟩
        else ⟨none⟩
      | _ => ⟨none⟩ := by
  rw [validateMin, h]

theorem validateMin_of_error (v : Value) (a : String) (e : NumError) (h : ParseInt a = .error e) :
    validateMin v a = ⟨some .ErrInvalidValidatorSyntax⟩ := by
  rw [validateMin, h]

theorem validateMax_of_ok (v : Value) (a : String) (N : Int) (h : ParseInt a = .ok N) :
    validateMax v a =
      match v with
      | .slice xs => validateMaxElems xs a
      | .int x => if x > N then ⟨some (.New "value is bigger than allowed")⟩ else ⟨none⟩
      | .str s =>
        if s.utf8ByteSize = 0 then ⟨some (.New "empty text")⟩
        else if (s.utf8ByteSize : Int) > N then ⟨some (.New "len of string is bigger than allowed")⟩
        else ⟨none⟩
      | _ => ⟨none⟩ := by
  rw [validateMax, h]

theorem validateMax_of_error (v : Value) (a : String) (e : NumError) (h : ParseInt a = .error e) :
    validateMax v a = ⟨some .ErrInvalidValidatorSyntax⟩ := by
  rw [validateMax, h]

/-- C7, as stated, fails: the text "é" has one character and two bytes; validateLen
reports a violation for it under len:1 and none under len:2. -/
theorem validateLen_counts_bytes :
    Atoi "1" = .ok 1 ∧ "é".length = 1 ∧
      validateLen (.str "é") "1" = ⟨some (.New "length of string is not equal")⟩ ∧
    Atoi "2" = .ok 2 ∧ validateLen (.str "é") "2" = ⟨none⟩ := by
  decide

/-- C7, amended: for a text s and an argument that parses to N, validateLen reports
a violation ("length of string is not equal") exactly when the byte length of s
differs from N; for a text of single-byte characters that is exactly when its
character count differs from N; "hi" under len:3 violates and "abc" does not. -/
theorem validateLen_text (s a : String) (N : Int) (h : Atoi a = .ok N) :
    ((validateLen (.str s) a).Err ≠ none ↔ (s.utf8ByteSize : Int) ≠ N) ∧
    validateLen (.str s) a =
      (if (s.utf8ByteSize : Int) ≠ N then ⟨some (.New "length of string is not equal")⟩
        else ⟨none⟩) ∧
    (isASCII s → ((validateLen (.str s) a).Err ≠ none ↔ (s.length : Int) ≠ N)) ∧
    validateLen (.str "hi") "3" = ⟨some (.New "length of string is not equal")⟩ ∧
    validateLen (.str "abc") "3" = ⟨none⟩ := by
  have hv := validateLen_str s a N h
  have h1 : (validateLen (.str s) a).Err ≠ none ↔ (s.utf8ByteSize : Int) ≠ N := by
    rw [hv]
    by_cases hb : (s.utf8ByteSize : Int) = N <;> simp [hb]
  refine ⟨h1, hv, ?_, by decide, by decide⟩
  intro hs
  rw [h1, utf8ByteSize_of_isASCII s hs]

theorem validateLen_text_witness :
    (validateLen (.str "héllo") "6").Err ≠ none ↔ (("héllo".utf8ByteSize : Nat) : Int) ≠ 6 :=
  (validateLen_text "héllo" "6" 6 (by decide)).1

/-- C8: on a signed integer x, validateMin returns the syntax error exactly when the
argument is no base-10 notation of a 64-bit signed integer; when it denotes N the
result is the violation "value is less than allowed" if x < N and no error
otherwise; under min:5 the value 4 violates and 5 and 6 do not, and a negative
argument is accepted. -/
theorem validateMin_int (x : Int) (a : String) :
    (validateMin (.int x) a = ⟨some .ErrInvalidValidatorSyntax⟩ ↔ ¬ ∃ N, IsDecimalInt64 a N) ∧
    (∀ N, IsDecimalInt64 a N →
      validateMin (.int x) a =
        if x < N then ⟨some (.New "value is less than allowed")⟩ else ⟨none⟩) ∧
    validateMin (.int 4) "5" = ⟨some (.New "value is less than allowed")⟩ ∧
    validateMin (.int 5) "5" = ⟨none⟩ ∧ validateMin (.int 6) "5" = ⟨none⟩ ∧
    validateMin (.int (-4)) "-3" = ⟨some (.New "value is less than allowed")⟩ ∧
    validateMin (.int (-3)) "-3" = ⟨none⟩ := by
  refine ⟨?_, ?_, by decide, by decide, by decide, by decide, by decide⟩
  · rw [← ParseInt_error_iff]
    constructor
    · intro h
      cases hp : ParseInt a with
      | error e => exact ⟨e, rfl⟩
      | ok N =>
        rw [validateMin_of_ok _ a N hp] at h
        by_cases hx : x < N <;> simp [hx] at h
    · rintro ⟨e, he⟩
      exact validateMin_of_error _ a e he
  · intro N hN
    rw [validateMin_of_ok _ a N ((ParseInt_ok_iff a N).2 hN)]

/-- C9: on a signed integer x, validateMax returns the syntax error exactly when the
argument is no base-10 notation of a 64-bit signed integer; when it denotes N the
result is the violation "value is bigger than allowed" if x > N and no error
otherwise; under max:5 the value 6 violates and 5 does not. -/
theorem validateMax_int (x : Int) (a : String) :
    (validateMax (.int x) a = ⟨some .ErrInvalidValidatorSyntax⟩ ↔ ¬ ∃ N, IsDecimalInt64 a N) ∧
    (∀ N, IsDecimalInt64 a N →
      validateMax (.int x) a =
        if x > N then ⟨some (.New "value is bigger than allowed")⟩ else ⟨none⟩) ∧
    validateMax (.int 6) "5" = ⟨some (.New "value is bigger than allowed")⟩ ∧
    validateMax (.int 5) "5" = ⟨none⟩ := by
  refine ⟨?_, ?_, by decide, by decide⟩
  · rw [← ParseInt_error_iff]
    constructor
    · intro h
      cases hp : ParseInt a with
      | error e => exact ⟨e, rfl⟩
      | ok N =>
        rw [validateMax_of_ok _ a N hp] at h
        by_cases hx : x > N <;> simp [hx] at h
    · rintro ⟨e, he⟩
      exact validateMax_of_error _ a e he
  · intro N hN
    rw [validateMax_of_ok _ a N ((ParseInt_ok_iff a N).2 hN)]

/-- C10: for a text s of single-byte characters and an argument denoting N,
validateMin reports a violation exactly when s is empty or its length is below N;
the empty text gets the message "empty text" for every N, a non-empty text that is
too short gets the different message "len of string is less than allowed". -/
theorem validateMin_text (s a : String) (N : Int) (hs : isASCII s) (h : IsDecimalInt64 a N) :
    ((validateMin (.str s) a).Err ≠ none ↔ (s = "" ∨ (s.length : Int) < N)) ∧
    (s = "" → validateMin (.str s) a = ⟨some (.New "empty text")⟩) ∧
    (s ≠ "" → (s.length : Int) < N →
      validateMin (.str s) a = ⟨some (.New "len of string is less than allowed")⟩) ∧
    error.New "empty text" ≠ error.New "len of string is less than allowed" := by
  have hv := validateMin_of_ok (.str s) a N ((ParseInt_ok_iff a N).2 h)
  have hz := utf8ByteSize_eq_zero s
  have hl := utf8ByteSize_of_isASCII s hs
  simp only at hv
  refine ⟨?_, ?_, ?_, by decide⟩
  · rw [hv]
    by_cases he : s = ""
    · rw [if_pos (hz.2 he)]
      simp [he]
    · have hnz : ¬ s.utf8ByteSize = 0 := fun h0 => he (hz.1 h0)
      rw [hl] at hnz
      rw [hl]
      by_cases hlt : (s.length : Int) < N <;> simp [he, hnz, hlt]
  · intro he
    rw [hv, if_pos (hz.2 he)]
  · intro he hlt
    have hnz : ¬ s.utf8ByteSize = 0 := fun h0 => he (hz.1 h0)
    rw [hv]
    rw [hl] at hnz ⊢
    simp [hnz, hlt]

theorem validateMin_text_witness :
    (validateMin (.str "") "-2").Err ≠ none ↔ (("" : String) = "" ∨ (("".length : Nat) : Int) < -2) :=
  (validateMin_text "" "-2" (-2) (by decide)
    ((ParseInt_ok_iff "-2" (-2)).1 (by decide))).1

theorem validateIn.strLoop_eq (s : String) (cs : List String) (flag : Bool) :
    validateIn.strLoop s cs flag = (flag || decide (s ∈ cs)) := by
  induction cs generalizing flag with
  | nil => simp [validateIn.strLoop]
  | cons c cs ih =>
    rw [validateIn.strLoop, ih]
    by_cases h : s = c <;> cases flag <;> simp [h]

theorem validateIn.intLoop_none (x : Int) (cs : List String) (flag : Bool)
    (h : ∃ c ∈ cs, ¬ ∃ N, IsDecimalInt64 c N) : validateIn.intLoop x cs flag = none := by
  induction cs generalizing flag with
  | nil => simp at h
  | cons c cs ih =>
    rw [validateIn.intLoop]
    cases hp : ParseInt c with
    | error e => rfl
    | ok val =>
      obtain ⟨d, hd, hdd⟩ := h
      simp at hd
      rcases hd with rfl | hd
      · exact absurd ⟨val, (ParseInt_ok_iff _ _).1 hp⟩ hdd
      · exact ih _ ⟨d, hd, hdd⟩

theorem validateIn.intLoop_some (x : Int) (cs : List String) (flag : Bool)
    (h : ∀ c ∈ cs, ∃ N, IsDecimalInt64 c N) :
    ∃ b : Bool, validateIn.intLoop x cs flag = some b ∧
      (b = true ↔ (flag = true ∨ ∃ c ∈ cs, IsDecimalInt64 c x)) := by
  induction cs generalizing flag with
  | nil => exact ⟨flag, rfl, by simp⟩
  | cons c cs ih =>
    obtain ⟨N, hN⟩ := h c (by simp)
    have hp : ParseInt c = .ok N := (ParseInt_ok_iff _ _).2 hN
    obtain ⟨b, hb, hiff⟩ := ih (if x = N then true else flag) (fun d hd => h d (by simp [hd]))
    refine ⟨b, ?_, ?_⟩
    · rw [validateIn.intLoop, hp]
      exact hb
    · rw [hiff]
      have hx : IsDecimalInt64 c x ↔ x = N := by
        constructor
        · intro hcx
          have := (ParseInt_ok_iff _ _).2 hcx
          rw [hp] at this
          cases this
          rfl
        · intro hxn
          rw [hxn]
          exact hN
      simp only [List.mem_cons, exists_eq_or_imp, hx]
      by_cases hxn : x = N <;> simp [hxn]

theorem validateIn_of_ne_empty (v : Value) (inStr : String) (h : inStr ≠ "") :
    validateIn v inStr =
      match v with
      | .slice xs => validateInElems xs inStr false
      | .int vInt =>
        match validateIn.intLoop vInt (Split inStr ',') false with
        | none => ⟨some .ErrInvalidValidatorSyntax⟩
        | some flag => validateIn.finish flag
      | .str vString => validateIn.finish (validateIn.strLoop vString (Split inStr ',') false)
      | _ => validateIn.finish false := by
  unfold validateIn
  rw [if_neg h]

theorem validateIn_empty (v : Value) : validateIn v "" = ⟨some .ErrInvalidValidatorSyntax⟩ := by
  unfold validateIn
  rw [if_pos rfl]

/-- C13: on a text s and a non-empty argument, validateIn reports the violation
"value not in a valid set" exactly when s equals none of the candidates obtained by
splitting the argument on commas, no error otherwise, and never the syntax error:
candidates are neither parsed nor trimmed. -/
theorem validateIn_text (s inStr : String) (h : inStr ≠ "") :
    ((validateIn (.str s) inStr).Err ≠ none ↔ s ∉ Split inStr ',') ∧
    (s ∉ Split inStr ',' → validateIn (.str s) inStr = notInSet) ∧
    (s ∈ Split inStr ',' → validateIn (.str s) inStr = ⟨none⟩) ∧
    validateIn (.str s) inStr ≠ ⟨some .ErrInvalidValidatorSyntax⟩ ∧
    validateIn (.str " a") "a,b" = notInSet ∧ validateIn (.str "b") "a,b" = ⟨none⟩ ∧
    validateIn (.str "x") "1,x,+" = ⟨none⟩ := by
  have hv : validateIn (.str s) inStr =
      validateIn.finish (false || decide (s ∈ Split inStr ',')) := by
    rw [validateIn_of_ne_empty _ _ h]
    dsimp only
    rw [validateIn.strLoop_eq]
  refine ⟨?_, ?_, ?_, ?_, by decide, by decide, by decide⟩
  · rw [hv]
    by_cases hm : s ∈ Split inStr ',' <;> simp [hm, validateIn.finish]
  · intro hm
    rw [hv]
    simp [hm, validateIn.finish, notInSet]
  · intro hm
    rw [hv]
    simp [hm, validateIn.finish]
  · rw [hv]
    by_cases hm : s ∈ Split inStr ',' <;> simp [hm, validateIn.finish]

theorem validateIn_text_witness :
    (validateIn (.str "red") "red,green").Err ≠ none ↔ "red" ∉ Split "red,green" ',' :=
  (validateIn_text "red" "red,green" (by decide)).1

/-- C12: on a signed integer x and a non-empty argument split on commas, validateIn
returns the syntax error when some candidate is no base-10 notation of a 64-bit
signed integer (also when an earlier candidate denotes x, as 1 under in:1,x); when
all candidates parse it reports the violation "value not in a valid set" exactly
when no candidate denotes x, and no error otherwise; under in:1,2,3 the value 2
passes and 4 violates. -/
theorem validateIn_int (x : Int) (inStr : String) (h : inStr ≠ "") :
    ((∃ c ∈ Split inStr ',', ¬ ∃ N, IsDecimalInt64 c N) →
      validateIn (.int x) inStr = ⟨some .ErrInvalidValidatorSyntax⟩) ∧
    ((∀ c ∈ Split inStr ',', ∃ N, IsDecimalInt64 c N) →
      ((validateIn (.int x) inStr).Err ≠ none ↔ ¬ ∃ c ∈ Split inStr ',', IsDecimalInt64 c x) ∧
      ((¬ ∃ c ∈ Split inStr ',', IsDecimalInt64 c x) → validateIn (.int x) inStr = notInSet) ∧
      ((∃ c ∈ Split inStr ',', IsDecimalInt64 c x) → validateIn (.int x) inStr = ⟨none⟩)) ∧
    validateIn (.int 2) "1,2,3" = ⟨none⟩ ∧ validateIn (.int 4) "1,2,3" = notInSet ∧
    validateIn (.int 1) "1,x" = ⟨some .ErrInvalidValidatorSyntax⟩ := by
  refine ⟨?_, ?_, by decide, by decide, by decide⟩
  · intro hbad
    rw [validateIn_of_ne_empty _ _ h]
    simp only [validateIn.intLoop_none x _ false hbad]
  · intro hall
    obtain ⟨b, hb, hiff⟩ := validateIn.intLoop_some x _ false hall
    have hv : validateIn (.int x) inStr = validateIn.finish b := by
      rw [validateIn_of_ne_empty _ _ h]
      simp only [hb]
    simp only [Bool.false_eq_true, false_or] at hiff
    refine ⟨?_, ?_, ?_⟩
    · rw [hv, ← hiff]
      cases b <;> simp [validateIn.finish]
    · intro hno
      rw [hv]
      have : b = false := by
        cases b
        · rfl
        · exact absurd (hiff.1 rfl) hno
      simp [this, validateIn.finish, notInSet]
    · intro hyes
      rw [hv, hiff.2 hyes]
      simp [validateIn.finish]

theorem validateIn_int_witness :
    validateIn (.int 7) "7,seven" = ⟨some .ErrInvalidValidatorSyntax⟩ :=
  (validateIn_int 7 "7,seven" (by decide)).1 (by
    refine ⟨"seven", by decide, ?_⟩
    rintro ⟨N, hN⟩
    have hp := (ParseInt_ok_iff _ _).2 hN
    have he : ParseInt "seven" = .error .ErrSyntax := by decide
    rw [he] at hp
    cases hp)

theorem Atoi.fastLoop_digits (ds : List Char) (h : ∀ c ∈ ds, isDigit c = true) (m : Nat) :
    Atoi.loop ds (m : Int) = some ((decimalFrom m ds : Nat) : Int) := by
  induction ds generalizing m with
  | nil => rfl
  | cons c cs ih =>
    have hc : isDigit c = true := h c (by simp)
    have := ih (fun d hd => h d (by simp [hd])) (m * 10 + digitVal c)
    rw [Atoi.loop]
    simp only [hc, Bool.true_eq_false, if_false]
    have hcast : ((m * 10 + digitVal c : Nat) : Int) = (m : Int) * 10 + (digitVal c : Int) := by
      push_cast
      rfl
    rw [← hcast, this]
    rfl

theorem Atoi.fastLoop_nondigit (ds : List Char) (h : ∃ c ∈ ds, isDigit c = false) (n : Int) :
    Atoi.loop ds n = none := by
  induction ds generalizing n with
  | nil => simp at h
  | cons c cs ih =>
    rw [Atoi.loop]
    by_cases hc : isDigit c = false
    · simp [hc]
    · obtain ⟨d, hd, hdd⟩ := h
      simp at hd
      rcases hd with rfl | hd
      · exact absurd hdd hc
      · simp only [hc, if_false]
        exact ih ⟨d, hd, hdd⟩ _

theorem Atoi.loop_some_iff (ds : List Char) (n : Int) :
    Atoi.loop ds 0 = some n ↔ (∀ c ∈ ds, isDigit c = true) ∧ n = (decimalValue ds : Int) := by
  by_cases hall : ∀ c ∈ ds, isDigit c = true
  · have := Atoi.fastLoop_digits ds hall 0
    simp only [Nat.cast_zero] at this
    rw [this]
    simp only [Option.some.injEq, decimalValue]
    exact ⟨fun h => ⟨hall, h.symm⟩, fun h => h.2.symm⟩
  · have hex : ∃ d ∈ ds, isDigit d = false := by
      by_contra hne
      apply hall
      intro d hd
      by_contra hdd
      exact hne ⟨d, hd, by simpa using hdd⟩
    rw [Atoi.fastLoop_nondigit ds hex]
    simp [hall]

theorem decimalFrom_lt (ds : List Char) (h : ∀ c ∈ ds, isDigit c = true) (n : Nat) :
    decimalFrom n ds < (n + 1) * 10 ^ ds.length := by
  induction ds generalizing n with
  | nil => simp [decimalFrom]
  | cons c cs ih =>
    have hc : isDigit c = true := h c (by simp)
    have hd : digitVal c ≤ 9 := by
      simp [isDigit] at hc
      simp [digitVal]
      omega
    have := ih (fun d hd => h d (by simp [hd])) (n * 10 + digitVal c)
    have hstep : decimalFrom n (c :: cs) = decimalFrom (n * 10 + digitVal c) cs := rfl
    rw [hstep, List.length_cons, pow_succ]
    calc decimalFrom (n * 10 + digitVal c) cs
        < (n * 10 + digitVal c + 1) * 10 ^ cs.length := this
      _ ≤ ((n + 1) * 10) * 10 ^ cs.length := by
          apply Nat.mul_le_mul_right
          omega
      _ = (n + 1) * (10 ^ cs.length * 10) := by ring

theorem utf8ByteSize_go_ge (cs : List Char) : cs.length ≤ String.utf8ByteSize.go cs := by
  induction cs with
  | nil => simp [String.utf8ByteSize.go]
  | cons c cs ih =>
    have := Char.utf8Size_pos c
    rw [String.utf8ByteSize.go, List.length_cons]
    omega

theorem length_le_utf8ByteSize (s : String) : s.data.length ≤ s.utf8ByteSize := by
  cases s with
  | mk cs => exact utf8ByteSize_go_ge cs

theorem decimalValue_lt_of_short (ds : List Char) (h : ∀ c ∈ ds, isDigit c = true)
    (hlen : ds.length ≤ 18) : decimalValue ds < 1000000000000000000 := by
  have h1 := decimalFrom_lt ds h 0
  have h2 : 10 ^ ds.length ≤ 10 ^ 18 := Nat.pow_le_pow_right (by norm_num) hlen
  simp only [decimalValue]
  have h3 : (10 : Nat) ^ 18 = 1000000000000000000 := by norm_num
  omega


theorem Atoi_fast (s : String) (c : Char) (cs : List Char) (hd : s.data = c :: cs)
    (hfast : 0 < s.utf8ByteSize ∧ s.utf8ByteSize < 19) :
    Atoi s =
      if (c = '-' ∨ c = '+') ∧ cs = [] then .error .ErrSyntax
      else
        match Atoi.loop (if c = '-' ∨ c = '+' then cs else c :: cs) 0 with
        | none => .error .ErrSyntax
        | some n => .ok (if c = '-' then -n else n) := by
  unfold Atoi
  simp only [hfast, and_self, if_true, hd]
  by_cases hs : c = '-' ∨ c = '+'
  · simp [hs]
  · simp [hs]

theorem Atoi_slow (s : String) (hslow : ¬ (0 < s.utf8ByteSize ∧ s.utf8ByteSize < 19)) :
    Atoi s = ParseInt s := by
  unfold Atoi
  simp only [hslow, if_false]

theorem Atoi_ok_iff (a : String) (N : Int) : Atoi a = .ok N ↔ IsDecimalInt64 a N := by
  by_cases hfast : 0 < a.utf8ByteSize ∧ a.utf8ByteSize < 19
  · have hlen := length_le_utf8ByteSize a
    cases hd : a.data with
    | nil =>
      constructor
      · intro h
        unfold Atoi at h
        simp [hfast, hd] at h
      · rintro ⟨ds, hne, _, hcase⟩
        rcases hcase with ⟨hform | hform, _, _⟩ | ⟨hform, _, _⟩
        · exact absurd (hd.symm.trans hform).symm hne
        · rw [hd] at hform
          cases hform
        · rw [hd] at hform
          cases hform
    | cons c cs =>
      rw [Atoi_fast a c cs hd hfast]
      rw [hd, List.length_cons] at hlen
      by_cases hm : c = '-'
      · subst hm
        by_cases hcs : cs = []
        · subst hcs
          simp only [true_or, and_self, if_true]
          constructor
          · intro h
            cases h
          · rintro ⟨ds, hne, hdig, hcase⟩
            rcases hcase with ⟨hform | hform, _, _⟩ | ⟨hform, _, _⟩
            · rw [hd] at hform
              subst hform
              exact absurd (hdig '-' (by simp)) (by decide)
            · rw [hd] at hform
              cases hform
            · rw [hd] at hform
              cases hform
              exact absurd rfl hne
        · simp only [true_or, hcs, and_false, if_false, if_true]
          constructor
          · intro h
            cases hl : Atoi.loop cs 0 with
            | none => simp [hl] at h
            | some n =>
              simp only [hl, Except.ok.injEq] at h
              obtain ⟨hdig, hn⟩ := (Atoi.loop_some_iff cs n).1 hl
              have := decimalValue_lt_of_short cs hdig (by omega)
              exact ⟨cs, hcs, hdig, Or.inr ⟨hd, by omega, by omega⟩⟩
          · rintro ⟨ds, hne, hdig, hcase⟩
            rcases hcase with ⟨hform | hform, _, _⟩ | ⟨hform, hN, _⟩
            · rw [hd] at hform
              subst hform
              exact absurd (hdig '-' (by simp)) (by decide)
            · rw [hd] at hform
              cases hform
            · rw [hd] at hform
              cases hform
              rw [(Atoi.loop_some_iff cs _).2 ⟨hdig, rfl⟩, hN]
      · by_cases hp : c = '+'
        · subst hp
          by_cases hcs : cs = []
          · subst hcs
            simp only [or_true, and_self, if_true]
            constructor
            · intro h
              cases h
            · rintro ⟨ds, hne, hdig, hcase⟩
              rcases hcase with ⟨hform | hform, _, _⟩ | ⟨hform, _, _⟩
              · rw [hd] at hform
                subst hform
                exact absurd (hdig '+' (by simp)) (by decide)
              · rw [hd] at hform
                cases hform
                exact absurd rfl hne
              · rw [hd] at hform
                cases hform
          · simp only [or_true, hcs, and_false, if_false, if_true, hm]
            constructor
            · intro h
              cases hl : Atoi.loop cs 0 with
              | none => simp [hl] at h
              | some n =>
                simp only [hl, Except.ok.injEq] at h
                obtain ⟨hdig, hn⟩ := (Atoi.loop_some_iff cs n).1 hl
                have := decimalValue_lt_of_short cs hdig (by omega)
                exact ⟨cs, hcs, hdig, Or.inl ⟨Or.inr hd, by omega, by omega⟩⟩
            · rintro ⟨ds, hne, hdig, hcase⟩
              rcases hcase with ⟨hform | hform, hN, _⟩ | ⟨hform, _, _⟩
              · rw [hd] at hform
                subst hform
                exact absurd (hdig '+' (by simp)) (by decide)
              · rw [hd] at hform
                cases hform
                rw [(Atoi.loop_some_iff cs _).2 ⟨hdig, rfl⟩, hN]
              · rw [hd] at hform
                cases hform
        · simp only [hm, hp, or_self, false_and, if_false]
          constructor
          · intro h
            cases hl : Atoi.loop (c :: cs) 0 with
            | none => simp [hl] at h
            | some n =>
              simp only [hl, Except.ok.injEq] at h
              obtain ⟨hdig, hn⟩ := (Atoi.loop_some_iff (c :: cs) n).1 hl
              have := decimalValue_lt_of_short (c :: cs) hdig (by simp; omega)
              exact ⟨c :: cs, by simp, hdig, Or.inl ⟨Or.inl hd, by omega, by omega⟩⟩
          · rintro ⟨ds, hne, hdig, hcase⟩
            rcases hcase with ⟨hform | hform, hN, _⟩ | ⟨hform, _, _⟩
            · rw [hd] at hform
              subst hform
              rw [(Atoi.loop_some_iff (c :: cs) _).2 ⟨hdig, rfl⟩, hN]
            · rw [hd] at hform
              cases hform
              exact absurd rfl hp
            · rw [hd] at hform
              cases hform
              exact absurd rfl hm
  · rw [Atoi_slow a hfast]
    exact ParseInt_ok_iff a N

theorem validateLen_of_ok (v : Value) (a : String) (N : Int) (h : Atoi a = .ok N) :
    validateLen v a =
      match v with
      | .slice xs => validateLenElems xs a
      | .str s =>
        if (s.utf8ByteSize : Int) ≠ N then ⟨some (.New "length of string is not equal")⟩
        else ⟨none⟩
      | _ => ⟨none⟩ := by
  rw [validateLen, h]

theorem validateLen_of_error (v : Value) (a : String) (e : NumError) (h : Atoi a = .error e) :
    validateLen v a = ⟨some .ErrInvalidValidatorSyntax⟩ := by
  rw [validateLen, h]

mutual
theorem validateLen_ne_syntax (v : Value) (a : String) (N : Int) (h : Atoi a = .ok N) :
    validateLen v a ≠ ⟨some .ErrInvalidValidatorSyntax⟩ := by
  rw [validateLen_of_ok v a N h]
  match v with
  | .slice xs => exact validateLenElems_ne_syntax xs a N h
  | .str s =>
    by_cases hb : (s.utf8ByteSize : Int) = N <;> simp [hb]
  | .int _ => simp
  | .invalid => simp
  | .struct _ => simp
  | .ptr _ => simp
  | .other _ => simp
theorem validateLenElems_ne_syntax (xs : List Value) (a : String) (N : Int)
    (h : Atoi a = .ok N) : validateLenElems xs a ≠ ⟨some .ErrInvalidValidatorSyntax⟩ := by
  match xs with
  | [] => simp [validateLenElems]
  | x :: rest =>
    rw [validateLenElems]
    have h1 := validateLen_ne_syntax x a N h
    have h2 := validateLenElems_ne_syntax rest a N h
    by_cases he : (validateLen x a).Err = none
    · simpa [he] using h2
    · simpa [he] using h1
end


/-- C11: for a text s of single-byte characters and an argument denoting N,
validateMax reports a violation exactly when s is empty or its length exceeds N;
the empty text violates ("empty text") whatever N is, also under max:5 and max:0. -/
theorem validateMax_text (s a : String) (N : Int) (hs : isASCII s) (h : IsDecimalInt64 a N) :
    ((validateMax (.str s) a).Err ≠ none ↔ (s = "" ∨ (s.length : Int) > N)) ∧
    (s = "" → validateMax (.str s) a = ⟨some (.New "empty text")⟩) ∧
    (s ≠ "" → (s.length : Int) > N →
      validateMax (.str s) a = ⟨some (.New "len of string is bigger than allowed")⟩) ∧
    validateMax (.str "") "5" = ⟨some (.New "empty text")⟩ ∧
    validateMax (.str "") "0" = ⟨some (.New "empty text")⟩ := by
  have hv := validateMax_of_ok (.str s) a N ((ParseInt_ok_iff a N).2 h)
  have hz := utf8ByteSize_eq_zero s
  have hl := utf8ByteSize_of_isASCII s hs
  simp only at hv
  refine ⟨?_, ?_, ?_, by decide, by decide⟩
  · rw [hv]
    by_cases he : s = ""
    · rw [if_pos (hz.2 he)]
      simp [he]
    · have hnz : ¬ s.utf8ByteSize = 0 := fun h0 => he (hz.1 h0)
      rw [hl] at hnz
      rw [hl]
      by_cases hlt : (s.length : Int) > N <;> simp [he, hnz, hlt]
  · intro he
    rw [hv, if_pos (hz.2 he)]
  · intro he hlt
    have hnz : ¬ s.utf8ByteSize = 0 := fun h0 => he (hz.1 h0)
    rw [hv]
    rw [hl] at hnz ⊢
    simp [hnz, hlt]

theorem validateMax_text_witness :
    (validateMax (.str "abcd") "3").Err ≠ none ↔
      (("abcd" : String) = "" ∨ (("abcd".length : Nat) : Int) > 3) :=
  (validateMax_text "abcd" "3" 3 (by decide) ((ParseInt_ok_iff "3" 3).1 (by decide))).1

/-- C17, as stated, fails: "-1" is no notation of a non-negative integer, yet
validateLen does not answer it with the syntax error: a text violates the length
rule and an integer passes. -/
theorem validateLen_accepts_negative_argument :
    (¬ ∃ N : Int, 0 ≤ N ∧ IsDecimalInt64 "-1" N) ∧
    validateLen (.str "abc") "-1" = ⟨some (.New "length of string is not equal")⟩ ∧
    validateLen (.int 3) "-1" = ⟨none⟩ ∧
    validateLen (.str "abc") "-1" ≠ ⟨some .ErrInvalidValidatorSyntax⟩ := by
  refine ⟨?_, by decide, by decide, by decide⟩
  rintro ⟨N, hN, hd⟩
  have hp := (ParseInt_ok_iff _ _).2 hd
  have he : ParseInt "-1" = .ok (-1) := by decide
  rw [he] at hp
  cases hp
  omega

/-- C17, amended: for every value and every argument a, validateLen returns
ErrInvalidValidatorSyntax exactly when a is no base-10 notation (optional sign,
then digits) of a 64-bit signed integer; a negative argument such as "-1" parses
and is used as the length, which every text violates. -/
theorem validateLen_syntax_error_iff (v : Value) (a : String) :
    (validateLen v a = ⟨some .ErrInvalidValidatorSyntax⟩ ↔ ¬ ∃ N, IsDecimalInt64 a N) ∧
    IsDecimalInt64 "-1" (-1) ∧
    (∀ s : String, validateLen (.str s) "-1" = ⟨some (.New "length of string is not equal")⟩) := by
  refine ⟨?_, (ParseInt_ok_iff _ _).1 (by decide), ?_⟩
  · constructor
    · rintro h ⟨N, hN⟩
      exact validateLen_ne_syntax v a N ((Atoi_ok_iff a N).2 hN) h
    · intro h
      cases hp : Atoi a with
      | error e => exact validateLen_of_error v a e hp
      | ok N => exact absurd ⟨N, (Atoi_ok_iff a N).1 hp⟩ h
  · intro s
    have hp : Atoi "-1" = .ok (-1) := by decide
    rw [validateLen_of_ok _ _ _ hp]
    have : ((s.utf8ByteSize : Nat) : Int) ≠ -1 := by omega
    simp [this]

/-- C19: with an argument that parses, validateLen returns no error on every
value that is neither a text nor a sequence (so on every integer), and validateMin
and validateMax return no error on every value that is neither a signed integer, a
text nor a sequence. -/
theorem uncovered_kinds_are_not_validated (v : Value) (a : String) (N : Int)
    (h : IsDecimalInt64 a N) :
    (v.Kind ≠ Kind.String → v.Kind ≠ Kind.Slice → validateLen v a = ⟨none⟩) ∧
    (v.Kind ≠ Kind.Int → v.Kind ≠ Kind.String → v.Kind ≠ Kind.Slice →
      validateMin v a = ⟨none⟩ ∧ validateMax v a = ⟨none⟩) ∧
    (∀ x : Int, validateLen (.int x) a = ⟨none⟩) := by
  have hA : Atoi a = .ok N := (Atoi_ok_iff a N).2 h
  have hP : ParseInt a = .ok N := (ParseInt_ok_iff a N).2 h
  refine ⟨?_, ?_, ?_⟩
  · intro h1 h2
    rw [validateLen_of_ok v a N hA]
    cases v <;> simp [Value.Kind] at h1 h2 ⊢
  · intro h0 h1 h2
    rw [validateMin_of_ok v a N hP, validateMax_of_ok v a N hP]
    cases v <;> simp [Value.Kind] at h0 h1 h2 ⊢
  · intro x
    rw [validateLen_of_ok _ a N hA]

theorem uncovered_kinds_are_not_validated_witness :
    validateMin (.other .Bool) "5" = ⟨none⟩ ∧ validateMax (.other .Bool) "5" = ⟨none⟩ :=
  (uncovered_kinds_are_not_validated (.other .Bool) "5" 5
    ((ParseInt_ok_iff "5" 5).1 (by decide))).2.1 (by decide) (by decide) (by decide)

/-- C20: on a value that is neither a signed integer, a text nor a sequence,
validateIn returns the violation "value not in a valid set" for every non-empty
argument, and an error for every argument: such a value never passes an in rule. -/
theorem validateIn_uncovered_kind (v : Value) (inStr : String) (hk1 : v.Kind ≠ Kind.Int)
    (hk2 : v.Kind ≠ Kind.String) (hk3 : v.Kind ≠ Kind.Slice) :
    (inStr ≠ "" → validateIn v inStr = ⟨some (.New "value not in a valid set")⟩) ∧
    (validateIn v inStr).Err ≠ none := by
  have h1 : inStr ≠ "" → validateIn v inStr = ⟨some (.New "value not in a valid set")⟩ := by
    intro hne
    rw [validateIn_of_ne_empty v inStr hne]
    cases v <;> simp [Value.Kind, validateIn.finish] at hk1 hk2 hk3 ⊢
  refine ⟨h1, ?_⟩
  by_cases hne : inStr = ""
  · subst hne
    rw [validateIn_empty]
    simp
  · rw [h1 hne]
    simp

theorem validateIn_uncovered_kind_witness :
    validateIn (.other .Uint) "1,2,3" = ⟨some (.New "value not in a valid set")⟩ :=
  (validateIn_uncovered_kind (.other .Uint) "1,2,3" (by decide) (by decide) (by decide)).1
    (by decide)

theorem reportedErrors_append (xs ys : List (StructField Value)) :
    reportedErrors (xs ++ ys) = reportedErrors xs ++ reportedErrors ys := by
  simp [reportedErrors, List.filterMap_append]

/-- C14: with the empty argument validateIn returns ErrInvalidValidatorSyntax for
every value, never the violation; and an exported field tagged "in:" among fields
with well-formed annotations contributes the bare syntax error, in its place, to
the list Validate returns. -/
theorem validateIn_empty_argument (v : Value) (name : String)
    (pre post : List (StructField Value)) (hpre : ∀ f ∈ pre, WellAnnotated f)
    (hpost : ∀ f ∈ post, WellAnnotated f) :
    validateIn v "" = ⟨some .ErrInvalidValidatorSyntax⟩ ∧
    validateIn v "" ≠ notInSet ∧
    Validate (.struct (pre ++ ⟨name, true, "in:", v⟩ :: post)) =
      .ok (.valErrs (reportedErrors pre ++ ⟨some .ErrInvalidValidatorSyntax⟩ ::
        reportedErrors post)) := by
  have hv := validateIn_empty v
  refine ⟨hv, ?_, ?_⟩
  · rw [hv]
    decide
  · have hall : ∀ f ∈ pre ++ ⟨name, true, "in:", v⟩ :: post, WellAnnotated f := by
      intro f hf
      simp only [List.mem_append, List.mem_cons] at hf
      rcases hf with hf | rfl | hf
      · exact hpre f hf
      · intro _
        exact ⟨rfl, "in", "", show ("in:" : String) = "in" ++ ":" ++ "" by decide, by decide⟩
      · exact hpost f hf
    have hfield : reportedErrors [(⟨name, true, "in:", v⟩ : StructField Value)] =
        [⟨some .ErrInvalidValidatorSyntax⟩] := by
      have hs : Split "in:" ':' = ["in", ""] := by decide
      have ht : ("in:" : String) ≠ "" := by decide
      simp [reportedErrors, evaluatorResult, hs, ht, Validate.dispatch, hv, entryOf]
    have hrep : reportedErrors (pre ++ ⟨name, true, "in:", v⟩ :: post) =
        reportedErrors pre ++ ⟨some .ErrInvalidValidatorSyntax⟩ :: reportedErrors post := by
      rw [reportedErrors_append, ← List.singleton_append, reportedErrors_append, hfield]
      rfl
    simp only [Validate, Indirect]
    rw [Validate.fields_wellAnnotated _ hall, hrep]
    simp

theorem validateIn_empty_argument_witness :
    Validate (.struct ([⟨"Name", true, "len:3", .str "hi"⟩] ++
      ⟨"Role", true, "in:", .slice []⟩ :: [⟨"Age", true, "min:5", .int 6⟩])) =
      .ok (.valErrs (reportedErrors [⟨"Name", true, "len:3", .str "hi"⟩] ++
        ⟨some .ErrInvalidValidatorSyntax⟩ :: reportedErrors [⟨"Age", true, "min:5", .int 6⟩])) :=
  (validateIn_empty_argument (.slice []) "Role" [⟨"Name", true, "len:3", .str "hi"⟩]
    [⟨"Age", true, "min:5", .int 6⟩]
    (by
      intro f hf _
      simp at hf
      subst hf
      exact ⟨rfl, "len", "3", by decide, by decide⟩)
    (by
      intro f hf _
      simp at hf
      subst hf
      exact ⟨rfl, "min", "5", by decide, by decide⟩)).2.2

theorem elems_first_failure (rule : Value → ValidationError)
    (elems : List Value → ValidationError) (hnil : elems [] = ⟨none⟩)
    (hcons : ∀ x rest, elems (x :: rest) = if (rule x).Err ≠ none then rule x else elems rest)
    (xs : List Value) :
    ((elems xs).Err = none ↔ ∀ x ∈ xs, (rule x).Err = none) ∧
    ∀ (pre : List Value) (x : Value) (post : List Value), xs = pre ++ x :: post →
      (∀ y ∈ pre, (rule y).Err = none) → (rule x).Err ≠ none → elems xs = rule x := by
  induction xs with
  | nil =>
    refine ⟨by simp [hnil], ?_⟩
    intro pre x post h
    simp at h
  | cons z rest ih =>
    rw [hcons]
    by_cases hz : (rule z).Err = none
    · simp only [hz, ne_eq, not_true_eq_false, if_false]
      refine ⟨?_, ?_⟩
      · rw [ih.1]
        simp [hz]
      · intro pre x post h hpre hx
        cases pre with
        | nil =>
          simp at h
          rw [h.1] at hz
          exact absurd hz hx
        | cons p pre2 =>
          simp at h
          exact ih.2 pre2 x post h.2 (fun y hy => hpre y (by simp [hy])) hx
    · simp only [ne_eq, hz, not_false_eq_true, if_true]
      refine ⟨?_, ?_⟩
      · simp [hz]
      · intro pre x post h hpre hx
        cases pre with
        | nil =>
          simp at h
          rw [h.1]
        | cons p pre2 =>
          simp at h
          exact absurd (hpre p (by simp)) (h.1 ▸ hz)

theorem validateLenElems_cons (x : Value) (rest : List Value) (a : String) :
    validateLenElems (x :: rest) a =
      if (validateLen x a).Err ≠ none then validateLen x a else validateLenElems rest a := by
  rw [validateLenElems]

theorem validateMinElems_cons (x : Value) (rest : List Value) (a : String) :
    validateMinElems (x :: rest) a =
      if (validateMin x a).Err ≠ none then validateMin x a else validateMinElems rest a := by
  rw [validateMinElems]

theorem validateMaxElems_cons (x : Value) (rest : List Value) (a : String) :
    validateMaxElems (x :: rest) a =
      if (validateMax x a).Err ≠ none then validateMax x a else validateMaxElems rest a := by
  rw [validateMaxElems]

theorem validateInElems_cons (x : Value) (rest : List Value) (a : String) (flag : Bool) :
    validateInElems (x :: rest) a flag =
      if (validateIn x a).Err ≠ none then validateIn x a else validateInElems rest a true := by
  rw [validateInElems]

/-- C16: for validateLen, validateMin and validateMax, an argument that parses and
a sequence xs whose elements may themselves be sequences: the result on xs is no
error exactly when the rule returns no error on every element, otherwise it is the
rule's result on the first element on which it returns an error, whatever follows
that element; the empty sequence yields no error. -/
theorem sequences_report_first_failing_element (xs : List Value) (a : String) (N : Int)
    (h : IsDecimalInt64 a N) :
    FirstFailure (fun v => validateLen v a) xs ∧
    FirstFailure (fun v => validateMin v a) xs ∧
    FirstFailure (fun v => validateMax v a) xs ∧
    validateLen (.slice []) a = ⟨none⟩ ∧ validateMin (.slice []) a = ⟨none⟩ ∧
    validateMax (.slice []) a = ⟨none⟩ ∧
    validateMin (.slice [.slice [.int 7, .str "abcde"], .slice [.str "", .int 1], .int 2]) "5" =
      ⟨some (.New "empty text")⟩ := by
  have hA : Atoi a = .ok N := (Atoi_ok_iff a N).2 h
  have hP : ParseInt a = .ok N := (ParseInt_ok_iff a N).2 h
  have hl : ∀ ys, validateLen (.slice ys) a = validateLenElems ys a := fun ys => by
    rw [validateLen_of_ok _ a N hA]
  have hmin : ∀ ys, validateMin (.slice ys) a = validateMinElems ys a := fun ys => by
    rw [validateMin_of_ok _ a N hP]
  have hmax : ∀ ys, validateMax (.slice ys) a = validateMaxElems ys a := fun ys => by
    rw [validateMax_of_ok _ a N hP]
  refine ⟨?_, ?_, ?_, ?_, ?_, ?_, by decide⟩
  · simp only [FirstFailure, hl]
    exact elems_first_failure (fun v => validateLen v a) (fun ys => validateLenElems ys a)
      (by simp [validateLenElems]) (fun x rest => validateLenElems_cons x rest a) xs
  · simp only [FirstFailure, hmin]
    exact elems_first_failure (fun v => validateMin v a) (fun ys => validateMinElems ys a)
      (by simp [validateMinElems]) (fun x rest => validateMinElems_cons x rest a) xs
  · simp only [FirstFailure, hmax]
    exact elems_first_failure (fun v => validateMax v a) (fun ys => validateMaxElems ys a)
      (by simp [validateMaxElems]) (fun x rest => validateMaxElems_cons x rest a) xs
  · rw [hl]
    simp [validateLenElems]
  · rw [hmin]
    simp [validateMinElems]
  · rw [hmax]
    simp [validateMaxElems]

theorem sequences_report_first_failing_element_witness :
    FirstFailure (fun v => validateMin v "5") [.int 7, .str "", .int 1] :=
  (sequences_report_first_failing_element [.int 7, .str "", .int 1] "5" 5
    ((ParseInt_ok_iff "5" 5).1 (by decide))).2.1

/-- C15: evaluation of validateIn on sequences with a non-empty argument: on the
empty sequence it returns the violation "value not in a valid set" (where
validateLen, validateMin and validateMax return no error); on a non-empty sequence
it returns the result of the first failing element, and no error when no element
fails. -/
theorem validateIn_sequence (xs : List Value) (inStr : String) (h : inStr ≠ "") :
    validateIn (.slice []) inStr = notInSet ∧
    (xs ≠ [] → FirstFailure (fun v => validateIn v inStr) xs) ∧
    validateIn (.slice []) "1,2,3" = notInSet ∧
    validateLen (.slice []) "3" = ⟨none⟩ ∧ validateMin (.slice []) "3" = ⟨none⟩ ∧
    validateMax (.slice []) "3" = ⟨none⟩ := by
  have hs : ∀ ys, validateIn (.slice ys) inStr = validateInElems ys inStr false := fun ys => by
    rw [validateIn_of_ne_empty _ _ h]
  refine ⟨?_, ?_, by decide, by decide, by decide, by decide⟩
  · rw [hs]
    simp [validateInElems, validateIn.finish, notInSet]
  · intro hne
    have hgen := elems_first_failure (fun v => validateIn v inStr)
      (fun ys => validateInElems ys inStr true)
      (by simp [validateInElems, validateIn.finish])
      (fun x rest => validateInElems_cons x rest inStr true) xs
    have hflag : validateInElems xs inStr false = validateInElems xs inStr true := by
      cases xs with
      | nil => exact absurd rfl hne
      | cons x rest => rw [validateInElems_cons, validateInElems_cons]
    simp only [FirstFailure, hs, hflag]
    exact hgen

theorem validateIn_sequence_witness :
    validateIn (.slice []) "red,green" = notInSet :=
  (validateIn_sequence [] "red,green" (by decide)).1

theorem Validate.fields_congr_tag (pre : List (StructField Value)) (f g : StructField Value)
    (post : List (StructField Value)) (hn : f.Name = g.Name)
    (he : f.IsExported = g.IsExported) (hv : f.value = g.value)
    (hf : f.Tag ≠ "") (hg : g.Tag ≠ "")
    (hs : ∃ key value r1 r2, Split f.Tag ':' = key :: value :: r1 ∧
      Split g.Tag ':' = key :: value :: r2)
    (valErrs : ValidationErrors) (valErr : ValidationError) :
    Validate.fields (pre ++ f :: post) valErrs valErr =
      Validate.fields (pre ++ g :: post) valErrs valErr := by
  induction pre generalizing valErrs valErr with
  | nil =>
    obtain ⟨key, value, r1, r2, h1, h2⟩ := hs
    simp only [List.nil_append, Validate.fields, hf, hg, h1, h2, hn, he, hv, if_false]
  | cons p rest ih =>
    simp only [List.cons_append, Validate.fields, List.append_eq, ih]

theorem tag_ne_empty (kind rest : String) : kind ++ ":" ++ rest ≠ "" := by
  intro h
  have := congrArg String.data h
  simp [String.data_append] at this

/-- C18, as stated, fails: under the tag "in:a:b" a text field holding "a:b"
violates and one holding "a" passes. -/
theorem Validate_splits_on_every_colon :
    Validate (.struct [⟨"Field", true, "in:a:b", .str "a:b"⟩]) =
      .ok (.valErrs [⟨some (.Errorf "Field" (.New "value not in a valid set"))⟩]) ∧
    Validate (.struct [⟨"Field", true, "in:a:b", .str "a"⟩]) = .ok .nil := by
  decide

/-- C18, amended: Validate splits the tag on every colon; the kind is the text
before the first colon and the argument is the text between the first and the
second colon (the whole remainder when there is no second colon); what follows a
second colon is ignored, so that the record validates as if the tag ended before
it.  For the tag "in:a:b" the argument is "a". -/
theorem Validate_argument_is_second_part (pre post : List (StructField Value))
    (name : String) (exported : Bool) (v : Value) (kind arg rest : String)
    (hk : ':' ∉ kind.data) (ha : ':' ∉ arg.data) :
    Split (kind ++ ":" ++ arg) ':' = [kind, arg] ∧
    Split (kind ++ ":" ++ (arg ++ ":" ++ rest)) ':' = kind :: arg :: Split rest ':' ∧
    Validate (.struct (pre ++ ⟨name, exported, kind ++ ":" ++ (arg ++ ":" ++ rest), v⟩ :: post)) =
      Validate (.struct (pre ++ ⟨name, exported, kind ++ ":" ++ arg, v⟩ :: post)) ∧
    Split "in:a:b" ':' = ["in", "a", "b"] ∧
    Validate (.struct [⟨"Field", true, "in:a:b", .str "a"⟩]) = .ok .nil ∧
    Validate (.struct [⟨"Field", true, "in:a:b", .str "a:b"⟩]) =
      .ok (.valErrs [⟨some (.Errorf "Field" (.New "value not in a valid set"))⟩]) := by
  have h1 : Split (kind ++ ":" ++ arg) ':' = [kind, arg] := by
    rw [Split_kind_arg _ _ hk, Split_of_not_mem _ ha]
  have h2 : Split (kind ++ ":" ++ (arg ++ ":" ++ rest)) ':' = kind :: arg :: Split rest ':' := by
    rw [Split_kind_arg _ _ hk, Split_kind_arg _ _ ha]
  refine ⟨h1, h2, ?_, by decide, by decide, by decide⟩
  simp only [Validate, Indirect]
  exact Validate.fields_congr_tag pre
    ⟨name, exported, kind ++ ":" ++ (arg ++ ":" ++ rest), v⟩
    ⟨name, exported, kind ++ ":" ++ arg, v⟩ post rfl rfl rfl (tag_ne_empty _ _)
    (tag_ne_empty _ _) ⟨kind, arg, Split rest ':', [], h2, h1⟩ [] ⟨none⟩

theorem Validate_argument_is_second_part_witness :
    Validate (.struct ([⟨"Id", true, "min:1", .int 0⟩] ++
        ⟨"Code", true, "len" ++ ":" ++ ("3" ++ ":" ++ "7"), .str "abc"⟩ :: [])) =
      Validate (.struct ([⟨"Id", true, "min:1", .int 0⟩] ++
        ⟨"Code", true, "len" ++ ":" ++ "3", .str "abc"⟩ :: [])) :=
  (Validate_argument_is_second_part [⟨"Id", true, "min:1", .int 0⟩] [] "Code" true
    (.str "abc") "len" "3" "7" (by decide) (by decide)).2.2.1

end validator
